import Mathlib

/-!
# KAT: the sect command line (`src/sect/sect_args.hpp`) and the spec's core

The development embeds

* `kat::SectArgs` with its constructors and `SectArgs::parse`, together with a
  functional model of the C library routines `parse` calls (`atoi` and GNU
  `getopt_long`);
* the coverage walker and the histogram tally of the specification, whose code
  (`sect.hpp`, `histogram.hpp`) is not part of the translated sources.

Conventions: a `const char *` is an `Option String` (`none` is a pointer that
was never assigned), `uint16_t` is a `Nat` kept below `2 ^ 16` by an explicit
`% 2 ^ 16`, `int` is `Int` (or `Nat` where only `0` and non zero matter).
-/

namespace kat

/-! ## Data model of `sect_args.hpp` -/

/-- The macro `DEFAULT_OUTPUT_PREFIX`. -/
def DEFAULT_OUTPUT_PREFIX : String := "./kat_sect_output"

/-- The constant `DEFAULT_THREADS`. -/
def DEFAULT_THREADS : Nat := 1

/-- The constant `DEFAULT_GC_BINS`. -/
def DEFAULT_GC_BINS : Nat := 1001

/-- The constant `DEFAULT_CVG_BINS`. -/
def DEFAULT_CVG_BINS : Nat := 1001

/-- The constant `DEFAULT_CVG_LOG`. -/
def DEFAULT_CVG_LOG : Bool := true

/-- The constant `DEFAULT_BOTH_STRANDS`. -/
def DEFAULT_BOTH_STRANDS : Bool := false

/-- The data members of `class SectArgs`, in declaration order. -/
structure SectArgs where
  fasta_arg : Option String
  db_arg : Option String
  input_type : Option String
  output_prefix : Option String
  gc_bins : Nat
  cvg_bins : Nat
  cvg_logscale : Bool
  threads_arg : Nat
  both_strands : Bool
  verbose : Bool
deriving DecidableEq, Repr

/-- The member initialiser list shared by both constructors of `SectArgs`;
`fasta_arg`, `db_arg` and `input_type` are not initialised. -/
def SectArgs.new : SectArgs :=
  { fasta_arg := none
    db_arg := none
    input_type := none
    output_prefix := some DEFAULT_OUTPUT_PREFIX
    gc_bins := DEFAULT_GC_BINS
    cvg_bins := DEFAULT_CVG_BINS
    cvg_logscale := DEFAULT_CVG_LOG
    threads_arg := DEFAULT_THREADS
    both_strands := DEFAULT_BOTH_STRANDS
    verbose := false }

/-! ## C library: `atoi` and the conversion to `uint16_t` -/

/-- The C `isspace` in the "C" locale. -/
def isspace (c : Char) : Bool :=
  c = ' ' || c = '\t' || c = '\n' || c = '\x0b' || c = '\x0c' || c = '\r'

/-- The C `isdigit`. -/
def isdigit (c : Char) : Bool := '0' ≤ c && c ≤ '9'

/-- Value of the longest run of decimal digits at the head of `cs`, continuing
the accumulated value `acc`. -/
def digitsValue : List Char → Nat → Nat
  | [], acc => acc
  | c :: cs, acc =>
    if isdigit c then digitsValue cs (acc * 10 + (c.toNat - '0'.toNat)) else acc

/-- The C `atoi` as a mathematical integer: leading white space, an optional
sign, then decimal digits; anything else ends the number. The C function is
only defined when this value fits an `int` (`INT_MIN ≤ atoi s ≤ INT_MAX`);
outside that range this value says nothing about the code, and every statement
that depends on the value of a numeric argument carries that range as a
hypothesis. -/
def atoi (s : String) : Int :=
  match s.data.dropWhile isspace with
  | [] => 0
  | c :: cs =>
    if c = '-' then - (digitsValue cs 0 : Int)
    else if c = '+' then (digitsValue cs 0 : Int)
    else (digitsValue (c :: cs) 0 : Int)

/-- Smallest value of a 32 bit `int`. -/
def INT_MIN : Int := -2147483648

/-- Largest value of a 32 bit `int`. -/
def INT_MAX : Int := 2147483647

/-- Conversion of an `int` to `uint16_t`: reduction modulo `2 ^ 16`. -/
def toUInt16 (v : Int) : Nat := (v % 65536).toNat

/-! ## C library: GNU `getopt_long` -/

/-- The `int` locals of `parse` that `long_options` points to. -/
inductive FlagVar
  | help_flag
  | usage_flag
  | verbose_flag
  | cvg_logscale_flag
deriving DecidableEq, Repr

/-- Values of the `int` locals of `parse`. -/
structure Flags where
  help_flag : Nat
  usage_flag : Nat
  verbose_flag : Nat
  cvg_logscale_flag : Nat
deriving DecidableEq, Repr

/-- The assignment `*flag = val`. -/
def Flags.store (fl : Flags) (v : FlagVar) (val : Nat) : Flags :=
  match v with
  | .help_flag => { fl with help_flag := val }
  | .usage_flag => { fl with usage_flag := val }
  | .verbose_flag => { fl with verbose_flag := val }
  | .cvg_logscale_flag => { fl with cvg_logscale_flag := val }

/-- The value `no_argument` of `has_arg`. -/
def no_argument : Nat := 0

/-- The value `required_argument` of `has_arg`. -/
def required_argument : Nat := 1

/-- The value `optional_argument` of `has_arg`. -/
def optional_argument : Nat := 2

/-- One `struct option`. -/
structure LongOption where
  name : String
  has_arg : Nat
  flag : Option FlagVar
  val : Char
deriving DecidableEq, Repr

/-- State of `getopt_long` between calls, with `argv` kept as lists:
`rest` is `argv[optind .. argc)` still to be scanned, `nextchar` the unread
part of the element of short options being scanned, `nonopts` the non-options
passed over so far (the block `argv[first_nonopt .. last_nonopt)` that the
permutation keeps right before `optind`), `optarg` the global `optarg`, and
`flags` the memory the `flag` pointers of the long options refer to. -/
structure GetoptState where
  rest : List String
  nextchar : List Char
  nonopts : List String
  optarg : Option String
  flags : Flags
deriving DecidableEq, Repr

/-- The macro `NONOPTION_P` of getopt: the element does not start with `-`, or
is `-` alone. -/
def NONOPTION_P (arg : String) : Bool :=
  match arg.data with
  | c :: _ :: _ => c != '-'
  | _ => true

/-- The C `strchr` on a string without its terminator: the suffix that starts at
the first `c`. -/
def strchr : List Char → Char → Option (List Char)
  | [], _ => none
  | d :: ds, c => if d = c then some (d :: ds) else strchr ds c

/-- Result of the search for a long option name. -/
inductive LongMatch
  | found (p : LongOption)
  | ambiguous
  | notFound
deriving DecidableEq, Repr

/-- Name lookup of `process_long_option`: an exact match wins, otherwise the
first entry that `name` abbreviates, unless a later entry it abbreviates
differs from that one in `has_arg`, `flag` or `val`. -/
def findLong (longopts : List LongOption) (name : List Char) : LongMatch :=
  match longopts.find? (fun p => decide (p.name.data = name)) with
  | some p => .found p
  | none =>
    match longopts.filter (fun p => name.isPrefixOf p.name.data) with
    | [] => .notFound
    | p :: ps =>
      if ps.any (fun q => decide (q.has_arg ≠ p.has_arg ∨ q.flag ≠ p.flag ∨ q.val ≠ p.val))
      then .ambiguous
      else .found p

/-- The error return of getopt for a missing argument. -/
def missingArgCode (optstring : List Char) : Char :=
  if optstring.head? = some ':' then ':' else '?'

/-- The function `process_long_option` of getopt for an element `--text`;
`st.rest` is already past that element. -/
def process_long_option (optstring : List Char) (longopts : List LongOption)
    (st : GetoptState) (text : List Char) : Option Char × GetoptState :=
  let name := text.takeWhile (fun c => c != '=')
  let nameend := text.dropWhile (fun c => c != '=')
  match findLong longopts name with
  | .ambiguous => (some '?', st)
  | .notFound => (some '?', st)
  | .found p =>
    let finish (st : GetoptState) : Option Char × GetoptState :=
      match p.flag with
      | some f => (some (Char.ofNat 0), { st with flags := st.flags.store f p.val.toNat })
      | none => (some p.val, st)
    match nameend with
    | _ :: value =>
      if p.has_arg ≠ 0 then finish { st with optarg := some (String.mk value) }
      else (some '?', st)
    | [] =>
      if p.has_arg = 1 then
        match st.rest with
        | a :: tl => finish { st with optarg := some a, rest := tl }
        | [] => (some (missingArgCode optstring), st)
      else finish st

/-- The short option branch of getopt for the option character `c`, with `cs`
the characters after it in the same element; `st.rest` is already past that
element. (The `W;` convention is left out: `parse` has no `W` in its option
string.) -/
def shortOption (optstring : List Char) (st : GetoptState) (c : Char) (cs : List Char) :
    Option Char × GetoptState :=
  let st := { st with nextchar := cs }
  match strchr optstring c with
  | none => (some '?', st)
  | some temp =>
    if c = ':' ∨ c = ';' then (some '?', st)
    else if temp.tail.head? = some ':' then
      if temp.tail.tail.head? = some ':' then
        (some c, { st with optarg := if cs = [] then none else some (String.mk cs),
                           nextchar := [] })
      else if cs ≠ [] then
        (some c, { st with optarg := some (String.mk cs), nextchar := [] })
      else
        match st.rest with
        | [] => (some (missingArgCode optstring), { st with nextchar := [] })
        | a :: tl => (some c, { st with optarg := some a, rest := tl, nextchar := [] })
    else (some c, st)

/-- The step of getopt under the ordering `PERMUTE` that passes over the
non-options at `optind` and adds them to the block of skipped non-options;
under `REQUIRE_ORDER` (`posixly_correct`) nothing is passed over. -/
def skipNonoptions (posixly_correct : Bool) (st : GetoptState) : GetoptState :=
  if posixly_correct then st
  else { st with nonopts := st.nonopts ++ st.rest.takeWhile NONOPTION_P,
                 rest := st.rest.dropWhile NONOPTION_P }

/-- The part of getopt that looks at the element `argv[optind]` when no element
of short options is being scanned: the end of `argv`, the terminator `--`, a
non-option (which ends the scan under `REQUIRE_ORDER`), a long option, or the
first short option of a new element. -/
def nextElement (optstring : List Char) (longopts : List LongOption) (st : GetoptState) :
    Option Char × GetoptState :=
  match st.rest with
  | [] => (none, st)
  | arg :: tl =>
    if arg = "--" then (none, { st with rest := tl })
    else if NONOPTION_P arg then (none, st)
    else
      match arg.data with
      | _ :: c :: cs =>
        if c = '-' then process_long_option optstring longopts { st with rest := tl } cs
        else shortOption optstring { st with rest := tl } c cs
      | _ => (none, st)

/-- One call of GNU `getopt_long` (not `getopt_long_only`), for an option
string that starts with neither `+` nor `-`. `none` is the return value `-1`;
a long option with a `flag` pointer returns the character of code `0`.
`posixly_correct` says whether the environment variable `POSIXLY_CORRECT` is
set (ordering `REQUIRE_ORDER`) or not (ordering `PERMUTE`). After the return
value `-1`, `argv[optind .. argc)` is `nonopts ++ rest`. -/
def getopt_long (posixly_correct : Bool) (optstring : List Char)
    (longopts : List LongOption) (st : GetoptState) : Option Char × GetoptState :=
  match st.nextchar with
  | c :: cs => shortOption optstring { st with optarg := none } c cs
  | [] =>
    nextElement optstring longopts (skipNonoptions posixly_correct { st with optarg := none })

/-! ## `SectArgs::parse` -/

/-- What `parse` writes before it calls `exit`. -/
inductive ExitMsg
  | usageAndHelp
  | missingArgument
  | help
  | usage
  | useUsageOrHelp
  | error (msg : String)
deriving DecidableEq, Repr

/-- How a call of `parse` ends: it returns, leaving the object as `cfg`; it
calls `exit (status)`; or it passes a null pointer to `atoi`. -/
inductive Outcome
  | ok (cfg : SectArgs)
  | exit (status : Nat) (msg : ExitMsg)
  | fault
deriving DecidableEq, Repr

/-- What one pass through the `switch` of `parse` does. -/
inductive SwitchResult
  | continue (cfg : SectArgs)
  | exit (status : Nat) (msg : ExitMsg)
  | fault
deriving DecidableEq, Repr

/-- The array `long_options` of `parse`. -/
def long_options : List LongOption :=
  [ { name := "verbose", has_arg := no_argument, flag := some .verbose_flag, val := 'v' },
    { name := "fasta", has_arg := required_argument, flag := none, val := 'f' },
    { name := "output_prefix", has_arg := required_argument, flag := none, val := 'o' },
    { name := "gc_bins", has_arg := required_argument, flag := none, val := 'x' },
    { name := "cvg_bins", has_arg := required_argument, flag := none, val := 'y' },
    { name := "cvg_logscale", has_arg := no_argument, flag := some .cvg_logscale_flag,
      val := 'l' },
    { name := "threads", has_arg := required_argument, flag := none, val := 't' },
    { name := "both_strands", has_arg := required_argument, flag := none, val := 'C' },
    { name := "help", has_arg := no_argument, flag := some .help_flag, val := 'h' },
    { name := "usage", has_arg := no_argument, flag := some .usage_flag, val := 'u' } ]

/-- The string `short_options` of `parse`. -/
def short_options : List Char := "f:o:x:y:lt:Cvuh".data

/-- The `switch (c)` of `parse` for a return value `c` of `getopt_long` other
than `-1`. A value with no `case` (such as `l` or `0`) falls through the switch
unchanged. What `case 't'` writes to `cerr` changes no state and is left out. -/
def switchCase (c : Char) (optarg : Option String) (self : SectArgs) : SwitchResult :=
  if c = ':' then .exit 1 .missingArgument
  else if c = 'h' then .exit 0 .help
  else if c = 'u' then .exit 0 .usage
  else if c = '?' then .exit 1 .useUsageOrHelp
  else if c = 'v' then .continue { self with verbose := true }
  else if c = 'f' then .continue { self with fasta_arg := optarg }
  else if c = 'o' then .continue { self with output_prefix := optarg }
  else if c = 't' then
    match optarg with
    | some s => .continue { self with threads_arg := toUInt16 (atoi s) }
    | none => .fault
  else if c = 'x' then
    match optarg with
    | some s => .continue { self with gc_bins := toUInt16 (atoi s) }
    | none => .fault
  else if c = 'y' then
    match optarg with
    | some s => .continue { self with cvg_bins := toUInt16 (atoi s) }
    | none => .fault
  else if c = 'C' then .continue { self with both_strands := true }
  else .continue self

/-- The code of `parse` after the `while` loop: the two flag tests, the count
of remaining arguments `argc - optind`, and the assignment of `db_arg`. -/
def afterOptions (st : GetoptState) (self : SectArgs) : Outcome :=
  if st.flags.help_flag ≠ 0 then .exit 0 .help
  else if st.flags.usage_flag ≠ 0 then .exit 0 .usage
  else
    match st.nonopts ++ st.rest with
    | [db] => .ok { self with db_arg := some db }
    | _ => .exit 1 (.error "Requires exactly 1 argument.")

/-- The `while (true)` loop of `parse` followed by the code after it; `none`
when `fuel` iterations did not reach the end of the options. -/
def parseLoop (posixly_correct : Bool) : Nat → GetoptState → SectArgs → Option Outcome
  | 0, _, _ => none
  | fuel + 1, st, self =>
    match getopt_long posixly_correct short_options long_options st with
    | (none, st1) => some (afterOptions st1 self)
    | (some c, st1) =>
      match switchCase c st1.optarg self with
      | .exit status msg => some (.exit status msg)
      | .fault => some .fault
      | .continue self1 => parseLoop posixly_correct fuel st1 self1

/-- Number of characters getopt still has to read, counting one for the end of
each element. -/
def GetoptState.size (st : GetoptState) : Nat :=
  st.nextchar.length + (st.rest.map (fun a => a.length + 1)).sum

/-- State of getopt before its first call: `optind = 1`, all flags `0`. -/
def GetoptState.init (argv : List String) : GetoptState :=
  { rest := argv.tail
    nextchar := []
    nonopts := []
    optarg := none
    flags := { help_flag := 0, usage_flag := 0, verbose_flag := 0, cvg_logscale_flag := 0 } }

/-- The method `SectArgs::parse (argc, argv)` on the object `self`, with
`argc = argv.length`, called with getopt in its initial state. -/
def parse (posixly_correct : Bool) (argv : List String) (self : SectArgs) : Option Outcome :=
  if argv.length ≤ 1 then some (.exit 1 .usageAndHelp)
  else
    parseLoop posixly_correct ((GetoptState.init argv).size + 1) (GetoptState.init argv) self

/-- The constructor `SectArgs (argc, argv)`. -/
def SectArgs.ofArgv (posixly_correct : Bool) (argv : List String) : Option Outcome :=
  parse posixly_correct argv SectArgs.new

/-! ## The options of a command line, as getopt reports them -/

/-- One return of `getopt_long` other than `-1`: the value returned and the
`optarg` it left. -/
abbrev OptEvent := Char × Option String

/-- The returns of `getopt_long` when it is called until it returns `-1`,
whatever the caller does with them, and the state it ends in; `none` when
`fuel` calls did not reach `-1`. -/
def getoptAll (posixly_correct : Bool) :
    Nat → GetoptState → Option (List OptEvent × GetoptState)
  | 0, _ => none
  | fuel + 1, st =>
    match getopt_long posixly_correct short_options long_options st with
    | (none, st1) => some ([], st1)
    | (some c, st1) =>
      match getoptAll posixly_correct fuel st1 with
      | some (evs, stF) => some ((c, st1.optarg) :: evs, stF)
      | none => none

/-- The options of the command line `argv` in the order getopt reports them, and
the final state of getopt, whose `nonopts ++ rest` are the arguments that remain
after option processing. -/
def optionTrace (posixly_correct : Bool) (argv : List String) :
    Option (List OptEvent × GetoptState) :=
  getoptAll posixly_correct ((GetoptState.init argv).size + 1) (GetoptState.init argv)

/-- The arguments `argv[optind .. argc)` in a state in which getopt has returned
`-1`. -/
def GetoptState.remaining (st : GetoptState) : List String := st.nonopts ++ st.rest

/-- The `switch` of `parse` run over a list of getopt returns, stopping at the
first that leaves `parse`. -/
def runSwitch : List OptEvent → SectArgs → SwitchResult
  | [], self => .continue self
  | (c, optarg) :: evs, self =>
    match switchCase c optarg self with
    | .continue self1 => runSwitch evs self1
    | .exit status msg => .exit status msg
    | .fault => .fault

/-- What `parse` ends in, given what the `switch` made of the options and the
state getopt ended in. -/
def finishParse (r : SwitchResult) (st : GetoptState) : Outcome :=
  match r with
  | .continue self => afterOptions st self
  | .exit status msg => .exit status msg
  | .fault => .fault

/-- The return `e` of getopt is an option that asks for a number (`t`, `x` or
`y`) with an argument that `atoi` and the conversion to `uint16_t` turn into
`0`. -/
def givesZero (e : OptEvent) : Bool :=
  match e.2 with
  | some s => (e.1 = 't' || e.1 = 'x' || e.1 = 'y') && toUInt16 (atoi s) = 0
  | none => false

/-- The return `e` of getopt is not an option that asks for a number (`t`, `x`
or `y`), or its argument has an `atoi` value inside the range of `int`, where
the C function `atoi` is defined. -/
def inIntRange (e : OptEvent) : Bool :=
  match e.2 with
  | some s =>
    !(e.1 = 't' || e.1 = 'x' || e.1 = 'y') ||
      (decide (INT_MIN ≤ atoi s) && decide (atoi s ≤ INT_MAX))
  | none => true

/-- The state `st` of getopt with the local `verbose_flag` of `parse` overwritten
by `v`. -/
def GetoptState.setVerboseFlag (st : GetoptState) (v : Nat) : GetoptState :=
  { st with flags := { st.flags with verbose_flag := v } }

/-! ## The core of the specification: coverage walker and histogram tally

The sources translated above hold the command line of `sect` and the entry
point of `histo` only; the classes that do the work are not among them. Their
contracts are taken from sections 4.2 and 4.3 of the specification. -/

/-- Modelled from the spec: the test of section 4.3 for a base inside
`A, C, G, T`, which the specification makes case-insensitive (the walker's code,
`sect.hpp`, is absent). -/
def isACGT (c : Char) : Bool :=
  c = 'A' || c = 'C' || c = 'G' || c = 'T' || c = 'a' || c = 'c' || c = 'g' || c = 't'

/-- Modelled from the spec: what the Coverage Walker of section 4.3 does with
one window `w` that starts at position `pos` (the walker's code, `sect.hpp`, is
absent): a window with a base outside `A, C, G, T` gets coverage `0` and the
index is not queried; otherwise the index is queried, which the query log
records, and the count it returns is the coverage. -/
def walkWindow (count : List Char → Nat) (pos : Nat) (w : List Char)
    (log : List (Nat × List Char)) : Nat × List (Nat × List Char) :=
  if w.all isACGT then (count w, log ++ [(pos, w)]) else (0, log)

/-- Modelled from the spec: the Coverage Walker of section 4.3 (its code,
`sect.hpp`, is absent): a window of length `k` slides with stride `1` over the
rest `seq` of the sequence, whose first base has position `pos`; the result is
the coverage profile and the log of the queries made to the index. -/
def coverageWalk (count : List Char → Nat) (k : Nat) :
    List Char → Nat → List (Nat × List Char) → List Nat × List (Nat × List Char)
  | [], pos, log =>
    if k = 0 then
      ([(walkWindow count pos [] log).1], (walkWindow count pos [] log).2)
    else ([], log)
  | c :: cs, pos, log =>
    if k ≤ (c :: cs).length then
      let r := walkWindow count pos ((c :: cs).take k) log
      let rs := coverageWalk count k cs (pos + 1) r.2
      (r.1 :: rs.1, rs.2)
    else ([], log)

/-- Modelled from the spec: the CoverageProfile of a sequence (section 3), as
the Coverage Walker started at position `0` with an empty query log produces
it (`sect.hpp` is absent). -/
def coverageProfile (count : List Char → Nat) (k : Nat) (seq : List Char) : List Nat :=
  (coverageWalk count k seq 0 []).1

/-- Modelled from the spec: the queries `(position, k-mer)` the Coverage Walker
makes to the index for a sequence, the query counter of section 8 (`sect.hpp`
is absent). -/
def coverageQueries (count : List Char → Nat) (k : Nat) (seq : List Char) :
    List (Nat × List Char) :=
  (coverageWalk count k seq 0 []).2

/-- Modelled from the spec: the k-mer count index of section 3 as the list of
its entries `(key, count)`, one for each distinct key (the index is external;
`jellyfish/compacted_hash.hpp` is absent). -/
structure KmerIndex where
  entries : List (Nat × Nat)
  nodup : (entries.map Prod.fst).Nodup

/-- Modelled from the spec: the increment of one bucket of the HistogramTable
(`histogram.hpp` is absent). -/
def incrementBucket : List Nat → Nat → List Nat
  | [], _ => []
  | t :: ts, 0 => (t + 1) :: ts
  | t :: ts, b + 1 => t :: incrementBucket ts b

/-- Modelled from the spec: `Histogram::do_it` as section 4.2 describes the
Histogram Tally (its code, `histogram.hpp`, is absent): the table has the
buckets `0 .. max_bucket`, all `0` at the start, and every key of the index
with count `c` increments bucket `min (c, max_bucket)`. -/
def Histogram.do_it (max_bucket : Nat) (index : KmerIndex) : List Nat :=
  index.entries.foldl (fun table e => incrementBucket table (min e.2 max_bucket))
    (List.replicate (max_bucket + 1) 0)

/-! ## Lemmas on getopt and on the loop of `parse` -/

theorem shortOption_size (optstring : List Char) (st : GetoptState) (c : Char) (cs : List Char)
    (r : Option Char) (st1 : GetoptState) (h : shortOption optstring st c cs = (r, st1)) :
    st1.size ≤ cs.length + (st.rest.map (fun a => a.length + 1)).sum := by
  unfold shortOption at h
  simp only at h
  split at h
  · cases h; simp [GetoptState.size]
  · split at h
    · cases h; simp [GetoptState.size]
    · split at h
      · split at h
        · cases h; simp [GetoptState.size]
        · split at h
          · cases h; simp [GetoptState.size]
          · split at h
            · rename_i heq
              cases h; simp [GetoptState.size, heq]
            · rename_i heq
              cases h; simp [GetoptState.size, heq]; omega
      · cases h; simp [GetoptState.size]

theorem process_long_option_size (optstring : List Char) (longopts : List LongOption)
    (st : GetoptState) (text : List Char) (r : Option Char) (st1 : GetoptState)
    (h : process_long_option optstring longopts st text = (r, st1)) :
    st1.size ≤ st.size := by
  unfold process_long_option at h
  simp only at h
  split at h
  · cases h; exact Nat.le_refl _
  · cases h; exact Nat.le_refl _
  · split at h
    · split at h
      · split at h <;> cases h <;> simp [GetoptState.size]
      · cases h; exact Nat.le_refl _
    · split at h
      · split at h
        · rename_i heq
          split at h <;> cases h <;> simp [GetoptState.size, heq]
        · cases h; exact Nat.le_refl _
      · split at h <;> cases h <;> simp [GetoptState.size]

theorem skipNonoptions_size (posix : Bool) (st : GetoptState) :
    (skipNonoptions posix st).size ≤ st.size := by
  unfold skipNonoptions
  split
  · exact Nat.le_refl _
  · simp only [GetoptState.size]
    have : ∀ l : List String, ((l.dropWhile NONOPTION_P).map (fun a => a.length + 1)).sum
        ≤ (l.map (fun a => a.length + 1)).sum := by
      intro l
      induction l with
      | nil => simp
      | cons a l ih =>
        simp only [List.dropWhile_cons]
        split
        · simp only [List.map_cons, List.sum_cons]; omega
        · exact Nat.le_refl _
    have := this st.rest
    omega

theorem nextElement_size (optstring : List Char) (longopts : List LongOption)
    (st : GetoptState) (c : Char) (st1 : GetoptState)
    (h : nextElement optstring longopts st = (some c, st1)) :
    st1.size < st.size := by
  unfold nextElement at h
  split at h
  · cases h
  · rename_i arg tl hrest
    split at h
    · cases h
    · split at h
      · cases h
      · split at h
        · rename_i x c1 cs harg
          have hlen : arg.length = cs.length + 2 := by
            simp [String.length, harg]
          split at h
          · have := process_long_option_size _ _ _ _ _ _ h
            simp only [GetoptState.size, hrest, List.map_cons, List.sum_cons] at this ⊢
            omega
          · have := shortOption_size _ _ _ _ _ _ h
            simp only [GetoptState.size, hrest, List.map_cons, List.sum_cons] at this ⊢
            omega
        · cases h

theorem getopt_long_size (posix : Bool) (optstring : List Char) (longopts : List LongOption)
    (st : GetoptState) (c : Char) (st1 : GetoptState)
    (h : getopt_long posix optstring longopts st = (some c, st1)) :
    st1.size < st.size := by
  unfold getopt_long at h
  split at h
  · rename_i c0 cs heq
    have := shortOption_size _ _ _ _ _ _ h
    simp only [GetoptState.size, heq, List.length_cons] at this ⊢
    omega
  · rename_i heq
    have h1 := nextElement_size _ _ _ _ _ h
    have h2 := skipNonoptions_size posix { st with optarg := none }
    simp only [GetoptState.size] at h1 h2 ⊢
    omega

theorem getoptAll_parseLoop (posix : Bool) (fuel : Nat) :
    ∀ (st : GetoptState) (self : SectArgs), st.size < fuel →
      ∃ evs stF, getoptAll posix fuel st = some (evs, stF) ∧
        parseLoop posix fuel st self = some (finishParse (runSwitch evs self) stF) := by
  induction fuel with
  | zero => intro st self h; omega
  | succ n ih =>
    intro st self h
    unfold getoptAll parseLoop
    cases hg : getopt_long posix short_options long_options st with
    | mk r st1 =>
      cases r with
      | none => exact ⟨[], st1, rfl, rfl⟩
      | some c =>
        have hlt := getopt_long_size _ _ _ _ _ _ hg
        have hsz : st1.size < n := by omega
        obtain ⟨evs, stF, h1, _⟩ := ih st1 self hsz
        refine ⟨(c, st1.optarg) :: evs, stF, by simp [h1], ?_⟩
        simp only [runSwitch]
        cases hs : switchCase c st1.optarg self with
        | «continue» self1 =>
          obtain ⟨evs2, stF2, h1b, h2b⟩ := ih st1 self1 hsz
          rw [h1] at h1b
          cases h1b
          simpa using h2b
        | exit status msg => simp [finishParse]
        | fault => simp [finishParse]

theorem optionTrace_total (posix : Bool) (argv : List String) :
    ∃ evs stF, optionTrace posix argv = some (evs, stF) := by
  obtain ⟨evs, stF, h, _⟩ := getoptAll_parseLoop posix ((GetoptState.init argv).size + 1)
    (GetoptState.init argv) SectArgs.new (Nat.lt_succ_self _)
  exact ⟨evs, stF, h⟩

theorem parse_eq_of_trace (posix : Bool) (argv : List String) (self : SectArgs)
    (evs : List OptEvent) (stF : GetoptState) (hargc : 1 < argv.length)
    (htrace : optionTrace posix argv = some (evs, stF)) :
    parse posix argv self = some (finishParse (runSwitch evs self) stF) := by
  obtain ⟨evs1, stF1, h1, h2⟩ := getoptAll_parseLoop posix ((GetoptState.init argv).size + 1)
    (GetoptState.init argv) self (Nat.lt_succ_self _)
  unfold optionTrace at htrace
  rw [htrace] at h1
  cases h1
  unfold parse
  rw [if_neg (by omega)]
  exact h2

theorem toUInt16_lt (v : Int) : toUInt16 v < 65536 := by
  unfold toUInt16
  have h1 : 0 ≤ v % 65536 := Int.emod_nonneg _ (by decide)
  have h2 : v % 65536 < 65536 := Int.emod_lt_of_pos _ (by decide)
  omega

/-- What one pass through the switch that stays in the loop does to each field. -/
theorem switchCase_continue (c : Char) (optarg : Option String) (self cfg : SectArgs)
    (h : switchCase c optarg self = .continue cfg) :
    cfg.db_arg = self.db_arg ∧ cfg.input_type = self.input_type ∧
    cfg.cvg_logscale = self.cvg_logscale ∧
    cfg.fasta_arg = (if c = 'f' then optarg else self.fasta_arg) ∧
    cfg.output_prefix = (if c = 'o' then optarg else self.output_prefix) ∧
    cfg.verbose = (self.verbose || decide (c = 'v')) ∧
    cfg.both_strands = (self.both_strands || decide (c = 'C')) ∧
    (c ≠ 'x' → cfg.gc_bins = self.gc_bins) ∧
    (c ≠ 'y' → cfg.cvg_bins = self.cvg_bins) ∧
    (c ≠ 't' → cfg.threads_arg = self.threads_arg) ∧
    (c = 'x' → ∃ s, optarg = some s ∧ cfg.gc_bins = toUInt16 (atoi s)) ∧
    (c = 'y' → ∃ s, optarg = some s ∧ cfg.cvg_bins = toUInt16 (atoi s)) ∧
    (c = 't' → ∃ s, optarg = some s ∧ cfg.threads_arg = toUInt16 (atoi s)) ∧
    c ≠ '?' ∧ c ≠ ':' ∧ c ≠ 'h' ∧ c ≠ 'u' := by
  unfold switchCase at h
  by_cases h1 : c = ':'
  · rw [if_pos h1] at h; cases h
  rw [if_neg h1] at h
  by_cases h2 : c = 'h'
  · rw [if_pos h2] at h; cases h
  rw [if_neg h2] at h
  by_cases h3 : c = 'u'
  · rw [if_pos h3] at h; cases h
  rw [if_neg h3] at h
  by_cases h4 : c = '?'
  · rw [if_pos h4] at h; cases h
  rw [if_neg h4] at h
  by_cases h5 : c = 'v'
  · rw [if_pos h5] at h; cases h; subst h5; simp
  rw [if_neg h5] at h
  by_cases h6 : c = 'f'
  · rw [if_pos h6] at h; cases h; subst h6; simp
  rw [if_neg h6] at h
  by_cases h7 : c = 'o'
  · rw [if_pos h7] at h; cases h; subst h7; simp
  rw [if_neg h7] at h
  by_cases h8 : c = 't'
  · rw [if_pos h8] at h
    subst h8
    cases optarg with
    | none => cases h
    | some s => cases h; simp
  rw [if_neg h8] at h
  by_cases h9 : c = 'x'
  · rw [if_pos h9] at h
    subst h9
    cases optarg with
    | none => cases h
    | some s => cases h; simp
  rw [if_neg h9] at h
  by_cases h10 : c = 'y'
  · rw [if_pos h10] at h
    subst h10
    cases optarg with
    | none => cases h
    | some s => cases h; simp
  rw [if_neg h10] at h
  by_cases h11 : c = 'C'
  · rw [if_pos h11] at h; cases h; subst h11; simp
  rw [if_neg h11] at h
  cases h
  simp [*]


theorem findLong_mem (longopts : List LongOption) (name : List Char) (p : LongOption)
    (h : findLong longopts name = .found p) : p ∈ longopts := by
  unfold findLong at h
  split at h
  · rename_i q hq
    cases h
    exact List.mem_of_find?_eq_some hq
  · split at h
    · cases h
    · rename_i q qs hq
      split at h
      · cases h
      · cases h
        have : p ∈ List.filter (fun p => name.isPrefixOf p.name.data) longopts := by
          rw [hq]; exact List.mem_cons_self _ _
        exact (List.mem_filter.mp this).1

theorem missingArgCode_short_options : missingArgCode short_options = '?' := by decide

theorem strchr_required (r : Char) (hr : r = 't' ∨ r = 'x' ∨ r = 'y') (temp : List Char)
    (h : strchr short_options r = some temp) :
    temp.tail.head? = some ':' ∧ temp.tail.tail.head? ≠ some ':' := by
  rcases hr with h' | h' | h' <;> subst h'
  · rw [(by decide : strchr short_options 't' = some ['t', ':', 'C', 'v', 'u', 'h'])] at h
    cases h; decide
  · rw [(by decide : strchr short_options 'x' =
      some ['x', ':', 'y', ':', 'l', 't', ':', 'C', 'v', 'u', 'h'])] at h
    cases h; decide
  · rw [(by decide : strchr short_options 'y' =
      some ['y', ':', 'l', 't', ':', 'C', 'v', 'u', 'h'])] at h
    cases h; decide

theorem shortOption_optarg (st : GetoptState) (c : Char) (cs : List Char) (r : Char)
    (st1 : GetoptState) (h : shortOption short_options st c cs = (some r, st1))
    (hr : r = 't' ∨ r = 'x' ∨ r = 'y') : st1.optarg ≠ none := by
  have hq : r ≠ '?' := by rcases hr with h | h | h <;> subst h <;> decide
  unfold shortOption at h
  rw [missingArgCode_short_options] at h
  simp only at h
  split at h
  · cases h; exact absurd rfl hq
  · rename_i temp htemp
    split at h
    · cases h; exact absurd rfl hq
    · split at h
      · split at h
        · rename_i h1 h2
          have hc : c = r := by cases h; rfl
          subst hc
          exact absurd h2 (strchr_required c hr temp htemp).2
        · split at h
          · cases h; simp
          · split at h
            · cases h; exact absurd rfl hq
            · cases h; simp
      · rename_i h1
        have hc : c = r := by cases h; rfl
        subst hc
        exact absurd (strchr_required c hr temp htemp).1 h1

theorem process_long_option_optarg (st : GetoptState) (text : List Char) (r : Char)
    (st1 : GetoptState) (h : process_long_option short_options long_options st text = (some r, st1))
    (hr : r = 't' ∨ r = 'x' ∨ r = 'y') : st1.optarg ≠ none := by
  have hq : r ≠ '?' := by rcases hr with h | h | h <;> subst h <;> decide
  have h0 : r ≠ Char.ofNat 0 := by rcases hr with h | h | h <;> subst h <;> decide
  unfold process_long_option at h
  rw [missingArgCode_short_options] at h
  simp only at h
  split at h
  · cases h; exact absurd rfl hq
  · cases h; exact absurd rfl hq
  · rename_i p hp
    have hmem := findLong_mem _ _ _ hp
    have hreq : p.flag = none ∧ p.val = r → p.has_arg = 1 := by
      intro ⟨hf, hv⟩
      simp only [long_options, List.mem_cons, List.mem_singleton, List.not_mem_nil,
        or_false] at hmem
      rcases hr with h' | h' | h' <;> subst h' <;>
        rcases hmem with h | h | h | h | h | h | h | h | h | h <;> subst h <;>
        first
          | rfl
          | exact absurd hv (by decide)
    split at h
    · split at h
      · split at h
        · cases h; exact absurd rfl h0
        · cases h; simp
      · cases h; exact absurd rfl hq
    · split at h
      · split at h
        · split at h
          · cases h; exact absurd rfl h0
          · cases h; simp
        · cases h; exact absurd rfl hq
      · rename_i hna
        split at h
        · cases h; exact absurd rfl h0
        · rename_i hf
          have hv : p.val = r := by cases h; rfl
          exact absurd (hreq ⟨hf, hv⟩) hna

theorem getopt_long_optarg (posix : Bool) (st : GetoptState) (c : Char) (st1 : GetoptState)
    (h : getopt_long posix short_options long_options st = (some c, st1))
    (hc : c = 't' ∨ c = 'x' ∨ c = 'y') : st1.optarg ≠ none := by
  unfold getopt_long at h
  split at h
  · exact shortOption_optarg _ _ _ _ _ h hc
  · unfold nextElement at h
    split at h
    · cases h
    · split at h
      · cases h
      · split at h
        · cases h
        · split at h
          · split at h
            · exact process_long_option_optarg _ _ _ _ h hc
            · exact shortOption_optarg _ _ _ _ _ h hc
          · cases h

theorem getoptAll_optarg (posix : Bool) (fuel : Nat) :
    ∀ (st : GetoptState) (evs : List OptEvent) (stF : GetoptState),
      getoptAll posix fuel st = some (evs, stF) →
      ∀ e ∈ evs, e.1 = 't' ∨ e.1 = 'x' ∨ e.1 = 'y' → e.2 ≠ none := by
  induction fuel with
  | zero => intro st evs stF h; cases h
  | succ n ih =>
    intro st evs stF h
    unfold getoptAll at h
    cases hg : getopt_long posix short_options long_options st with
    | mk r st1 =>
      rw [hg] at h
      cases r with
      | none => cases h; intro e he; cases he
      | some c =>
        simp only at h
        cases hrec : getoptAll posix n st1 with
        | none => rw [hrec] at h; cases h
        | some p =>
          obtain ⟨evs1, stF1⟩ := p
          rw [hrec] at h
          cases h
          intro e he hc
          rcases List.mem_cons.mp he with h1 | h1
          · subst h1
            exact getopt_long_optarg posix st c st1 hg hc
          · exact ih st1 evs1 stF hrec e h1 hc

theorem switchCase_of_wellformed (c : Char) (optarg : Option String) (self : SectArgs)
    (hw : c ≠ '?' ∧ c ≠ ':' ∧ c ≠ 'h' ∧ c ≠ 'u')
    (ha : c = 't' ∨ c = 'x' ∨ c = 'y' → optarg ≠ none) :
    ∃ cfg, switchCase c optarg self = .continue cfg := by
  obtain ⟨h4, h1, h2, h3⟩ := hw
  unfold switchCase
  rw [if_neg h1, if_neg h2, if_neg h3, if_neg h4]
  by_cases h5 : c = 'v'
  · rw [if_pos h5]; exact ⟨_, rfl⟩
  rw [if_neg h5]
  by_cases h6 : c = 'f'
  · rw [if_pos h6]; exact ⟨_, rfl⟩
  rw [if_neg h6]
  by_cases h7 : c = 'o'
  · rw [if_pos h7]; exact ⟨_, rfl⟩
  rw [if_neg h7]
  by_cases h8 : c = 't'
  · rw [if_pos h8]
    cases optarg with
    | none => exact absurd rfl (ha (Or.inl h8))
    | some s => exact ⟨_, rfl⟩
  rw [if_neg h8]
  by_cases h9 : c = 'x'
  · rw [if_pos h9]
    cases optarg with
    | none => exact absurd rfl (ha (Or.inr (Or.inl h9)))
    | some s => exact ⟨_, rfl⟩
  rw [if_neg h9]
  by_cases h10 : c = 'y'
  · rw [if_pos h10]
    cases optarg with
    | none => exact absurd rfl (ha (Or.inr (Or.inr h10)))
    | some s => exact ⟨_, rfl⟩
  rw [if_neg h10]
  by_cases h11 : c = 'C'
  · rw [if_pos h11]; exact ⟨_, rfl⟩
  rw [if_neg h11]
  exact ⟨_, rfl⟩

theorem runSwitch_of_wellformed (evs : List OptEvent) :
    ∀ self : SectArgs,
      (∀ e ∈ evs, e.1 ≠ '?' ∧ e.1 ≠ ':' ∧ e.1 ≠ 'h' ∧ e.1 ≠ 'u') →
      (∀ e ∈ evs, e.1 = 't' ∨ e.1 = 'x' ∨ e.1 = 'y' → e.2 ≠ none) →
      ∃ cfg, runSwitch evs self = .continue cfg := by
  induction evs with
  | nil => intro self _ _; exact ⟨self, rfl⟩
  | cons e evs ih =>
    intro self hw ha
    obtain ⟨c, optarg⟩ := e
    obtain ⟨cfg1, h1⟩ := switchCase_of_wellformed c optarg self
      (hw (c, optarg) (List.mem_cons_self _ _)) (ha (c, optarg) (List.mem_cons_self _ _))
    obtain ⟨cfg, h2⟩ := ih cfg1 (fun e he => hw e (List.mem_cons_of_mem _ he))
      (fun e he => ha e (List.mem_cons_of_mem _ he))
    refine ⟨cfg, ?_⟩
    simp only [runSwitch, h1]
    exact h2

theorem runSwitch_continue (evs : List OptEvent) :
    ∀ self cfg : SectArgs, runSwitch evs self = .continue cfg →
      cfg.db_arg = self.db_arg ∧ cfg.input_type = self.input_type ∧
      cfg.cvg_logscale = self.cvg_logscale ∧
      cfg.verbose = (self.verbose || evs.any (fun e => decide (e.1 = 'v'))) ∧
      cfg.both_strands = (self.both_strands || evs.any (fun e => decide (e.1 = 'C'))) ∧
      ((∀ e ∈ evs, e.1 ≠ 'x') → cfg.gc_bins = self.gc_bins) ∧
      ((∀ e ∈ evs, e.1 ≠ 'y') → cfg.cvg_bins = self.cvg_bins) ∧
      ((∀ e ∈ evs, e.1 ≠ 't') → cfg.threads_arg = self.threads_arg) ∧
      (self.gc_bins < 65536 → cfg.gc_bins < 65536) ∧
      (self.cvg_bins < 65536 → cfg.cvg_bins < 65536) ∧
      (self.threads_arg < 65536 → cfg.threads_arg < 65536) ∧
      ((∀ e ∈ evs, givesZero e = false) → 1 ≤ self.gc_bins → 1 ≤ cfg.gc_bins) ∧
      ((∀ e ∈ evs, givesZero e = false) → 1 ≤ self.cvg_bins → 1 ≤ cfg.cvg_bins) ∧
      ((∀ e ∈ evs, givesZero e = false) → 1 ≤ self.threads_arg → 1 ≤ cfg.threads_arg) ∧
      (∀ e ∈ evs, e.1 ≠ '?' ∧ e.1 ≠ ':' ∧ e.1 ≠ 'h' ∧ e.1 ≠ 'u') := by
  induction evs with
  | nil =>
    intro self cfg h
    cases h
    simp
  | cons e evs ih =>
    intro self cfg h
    obtain ⟨c, optarg⟩ := e
    simp only [runSwitch] at h
    cases hs : switchCase c optarg self with
    | exit status msg => rw [hs] at h; cases h
    | fault => rw [hs] at h; cases h
    | «continue» cfg1 =>
      rw [hs] at h
      simp only at h
      obtain ⟨a1, a2, a3, _, _, a6, a7, a8, a9, a10, a11, a12, a13, a15⟩ :=
        switchCase_continue c optarg self cfg1 hs
      obtain ⟨b1, b2, b3, b4, b5, b6, b7, b8, b9, b10, b11, b12, b13, b14, b15⟩ := ih cfg1 cfg h
      refine ⟨b1.trans a1, b2.trans a2, b3.trans a3, ?_, ?_, ?_, ?_, ?_, ?_, ?_, ?_, ?_, ?_, ?_, ?_⟩
      · rw [b4, a6, List.any_cons, Bool.or_assoc]
      · rw [b5, a7, List.any_cons, Bool.or_assoc]
      · intro hx
        rw [b6 (fun e he => hx e (List.mem_cons_of_mem _ he)),
          a8 (hx (c, optarg) (List.mem_cons_self _ _))]
      · intro hx
        rw [b7 (fun e he => hx e (List.mem_cons_of_mem _ he)),
          a9 (hx (c, optarg) (List.mem_cons_self _ _))]
      · intro hx
        rw [b8 (fun e he => hx e (List.mem_cons_of_mem _ he)),
          a10 (hx (c, optarg) (List.mem_cons_self _ _))]
      · intro hlt
        apply b9
        by_cases hc : c = 'x'
        · obtain ⟨s, _, hv⟩ := a11 hc
          rw [hv]; exact toUInt16_lt _
        · rw [a8 hc]; exact hlt
      · intro hlt
        apply b10
        by_cases hc : c = 'y'
        · obtain ⟨s, _, hv⟩ := a12 hc
          rw [hv]; exact toUInt16_lt _
        · rw [a9 hc]; exact hlt
      · intro hlt
        apply b11
        by_cases hc : c = 't'
        · obtain ⟨s, _, hv⟩ := a13 hc
          rw [hv]; exact toUInt16_lt _
        · rw [a10 hc]; exact hlt
      · intro hnz hpos
        apply b12 (fun e he => hnz e (List.mem_cons_of_mem _ he))
        by_cases hc : c = 'x'
        · obtain ⟨s, hs', hv⟩ := a11 hc
          have := hnz (c, optarg) (List.mem_cons_self _ _)
          simp only [givesZero, hs', hc] at this
          have h0 : toUInt16 (atoi s) ≠ 0 := by simpa using this
          rw [hv]; omega
        · rw [a8 hc]; exact hpos
      · intro hnz hpos
        apply b13 (fun e he => hnz e (List.mem_cons_of_mem _ he))
        by_cases hc : c = 'y'
        · obtain ⟨s, hs', hv⟩ := a12 hc
          have := hnz (c, optarg) (List.mem_cons_self _ _)
          simp only [givesZero, hs', hc] at this
          have h0 : toUInt16 (atoi s) ≠ 0 := by simpa using this
          rw [hv]; omega
        · rw [a9 hc]; exact hpos
      · intro hnz hpos
        apply b14 (fun e he => hnz e (List.mem_cons_of_mem _ he))
        by_cases hc : c = 't'
        · obtain ⟨s, hs', hv⟩ := a13 hc
          have := hnz (c, optarg) (List.mem_cons_self _ _)
          simp only [givesZero, hs', hc] at this
          have h0 : toUInt16 (atoi s) ≠ 0 := by simpa using this
          rw [hv]; omega
        · rw [a10 hc]; exact hpos
      · intro e he
        rcases List.mem_cons.mp he with h1 | h1
        · subst h1; exact a15
        · exact b15 e h1

theorem afterOptions_ok (st : GetoptState) (self cfg : SectArgs)
    (h : afterOptions st self = .ok cfg) :
    st.flags.help_flag = 0 ∧ st.flags.usage_flag = 0 ∧
    ∃ db, st.nonopts ++ st.rest = [db] ∧ cfg = { self with db_arg := some db } := by
  unfold afterOptions at h
  split at h
  · cases h
  · split at h
    · cases h
    · rename_i h1 h2
      split at h
      · rename_i db hdb
        cases h
        exact ⟨not_not.mp h1, not_not.mp h2, db, hdb, rfl⟩
      · cases h

theorem finishParse_ok (r : SwitchResult) (st : GetoptState) (cfg : SectArgs)
    (h : finishParse r st = .ok cfg) :
    ∃ cfg1, r = .continue cfg1 ∧ afterOptions st cfg1 = .ok cfg := by
  cases r with
  | «continue» cfg1 => exact ⟨cfg1, rfl, h⟩
  | exit status msg => cases h
  | fault => cases h

theorem parse_ok_length (posix : Bool) (argv : List String) (self cfg : SectArgs)
    (h : parse posix argv self = some (.ok cfg)) : 1 < argv.length := by
  unfold parse at h
  split at h
  · cases h
  · omega

/-- An accepted command line: the switch stayed in the loop for every option,
and the code after the loop set `db_arg`. -/
theorem parse_ok (posix : Bool) (argv : List String) (self cfg : SectArgs)
    (evs : List OptEvent) (stF : GetoptState)
    (htrace : optionTrace posix argv = some (evs, stF))
    (h : parse posix argv self = some (.ok cfg)) :
    ∃ cfg1 db, runSwitch evs self = .continue cfg1 ∧ stF.flags.help_flag = 0 ∧
      stF.flags.usage_flag = 0 ∧ stF.nonopts ++ stF.rest = [db] ∧
      cfg = { cfg1 with db_arg := some db } := by
  rw [parse_eq_of_trace posix argv self evs stF (parse_ok_length _ _ _ _ h) htrace] at h
  obtain ⟨cfg1, h1, h2⟩ := finishParse_ok _ _ _ (Option.some.inj h)
  obtain ⟨h3, h4, db, h5, h6⟩ := afterOptions_ok _ _ _ h2
  exact ⟨cfg1, db, h1, h3, h4, h5, h6⟩

theorem afterOptions_of_flags (st : GetoptState) (self : SectArgs)
    (h1 : st.flags.help_flag = 0) (h2 : st.flags.usage_flag = 0) :
    afterOptions st self =
      match st.nonopts ++ st.rest with
      | [db] => .ok { self with db_arg := some db }
      | _ => .exit 1 (.error "Requires exactly 1 argument.") := by
  unfold afterOptions
  rw [if_neg (by simp [h1]), if_neg (by simp [h2])]

theorem process_long_option_not_v (st : GetoptState) (text : List Char) (r : Option Char)
    (st1 : GetoptState)
    (h : process_long_option short_options long_options st text = (r, st1)) :
    r ≠ some 'v' := by
  unfold process_long_option at h
  rw [missingArgCode_short_options] at h
  simp only at h
  have hq : some '?' ≠ some 'v' := by decide
  have h0 : some (Char.ofNat 0) ≠ some 'v' := by decide
  split at h
  · cases h; exact hq
  · cases h; exact hq
  · rename_i p hp
    have hmem := findLong_mem _ _ _ hp
    have hv : p.flag = none → p.val ≠ 'v' := by
      intro hf
      simp only [long_options, List.mem_cons, List.mem_singleton, List.not_mem_nil,
        or_false] at hmem
      rcases hmem with h | h | h | h | h | h | h | h | h | h <;> subst h <;>
        first
          | exact absurd hf (by decide)
          | decide
    split at h
    · split at h
      · split at h
        · cases h; exact h0
        · rename_i hf
          cases h
          intro hc
          exact hv hf (Option.some.inj hc)
      · cases h; exact hq
    · split at h
      · split at h
        · split at h
          · cases h; exact h0
          · rename_i hf
            cases h
            intro hc
            exact hv hf (Option.some.inj hc)
        · cases h; exact hq
      · split at h
        · cases h; exact h0
        · rename_i hf
          cases h
          intro hc
          exact hv hf (Option.some.inj hc)

theorem getopt_long_verbose (posix : Bool) (st : GetoptState) (tl : List String)
    (hnc : st.nextchar = []) (hrest : st.rest = "--verbose" :: tl) :
    getopt_long posix short_options long_options st =
      (some (Char.ofNat 0),
        { st with rest := tl, optarg := none,
                  flags := { st.flags with verbose_flag := 'v'.toNat } }) := by
  obtain ⟨rest, nextchar, nonopts, optarg, flags⟩ := st
  simp only at hnc hrest
  subst hnc hrest
  cases posix
  · simp only [getopt_long, skipNonoptions]
    have h1 : List.takeWhile NONOPTION_P ("--verbose" :: tl) = [] := rfl
    have h2 : List.dropWhile NONOPTION_P ("--verbose" :: tl) = "--verbose" :: tl := rfl
    simp only [h1, h2, List.append_nil]
    rfl
  · rfl

theorem switchCase_zero (optarg : Option String) (self : SectArgs) :
    switchCase (Char.ofNat 0) optarg self = .continue self := by
  unfold switchCase
  rw [if_neg (by decide), if_neg (by decide), if_neg (by decide), if_neg (by decide),
    if_neg (by decide), if_neg (by decide), if_neg (by decide), if_neg (by decide),
    if_neg (by decide), if_neg (by decide), if_neg (by decide)]

theorem digitChar_isdigit (m : Nat) (h : m < 10) :
    isdigit (Nat.digitChar m) = true ∧ (Nat.digitChar m).toNat - '0'.toNat = m ∧
    isspace (Nat.digitChar m) = false ∧ Nat.digitChar m ≠ '-' ∧ Nat.digitChar m ≠ '+' := by
  interval_cases m <;> decide

theorem digitsValue_toDigitsCore (f : Nat) :
    ∀ (n : Nat) (ds : List Char), n < f →
      digitsValue (Nat.toDigitsCore 10 f n ds) 0 = digitsValue ds n := by
  induction f with
  | zero => intro n ds h; omega
  | succ f ih =>
    intro n ds h
    have hd := digitChar_isdigit (n % 10) (Nat.mod_lt _ (by decide))
    unfold Nat.toDigitsCore
    simp only
    split
    · rename_i h0
      simp only [digitsValue, hd.1, if_true, hd.2.1]
      congr 1
      omega
    · rename_i h0
      rw [ih (n / 10) _ (by omega)]
      simp only [digitsValue, hd.1, if_true, hd.2.1]
      congr 1
      omega

theorem toDigitsCore_head (f : Nat) :
    ∀ (n : Nat) (ds : List Char),
      ∃ c cs, Nat.toDigitsCore 10 (f + 1) n ds = c :: cs ∧ isspace c = false ∧
        c ≠ '-' ∧ c ≠ '+' := by
  induction f with
  | zero =>
    intro n ds
    have hd := digitChar_isdigit (n % 10) (Nat.mod_lt _ (by decide))
    unfold Nat.toDigitsCore
    simp only
    split
    · exact ⟨_, _, rfl, hd.2.2⟩
    · exact ⟨_, _, rfl, hd.2.2⟩
  | succ f ih =>
    intro n ds
    have hd := digitChar_isdigit (n % 10) (Nat.mod_lt _ (by decide))
    unfold Nat.toDigitsCore
    simp only
    split
    · exact ⟨_, _, rfl, hd.2.2⟩
    · exact ih _ _

theorem atoi_toString (n : Nat) : atoi (toString n) = (n : Int) := by
  have hdata : (toString n).data = Nat.toDigits 10 n := rfl
  obtain ⟨c, cs, hcs, h1, h2, h3⟩ := toDigitsCore_head n n []
  have hval := digitsValue_toDigitsCore (n + 1) n [] (Nat.lt_succ_self n)
  unfold atoi
  rw [hdata]
  unfold Nat.toDigits
  rw [hcs] at hval ⊢
  simp only [List.dropWhile_cons, h1, Bool.false_eq_true, if_false, h2, h3]
  rw [hval]
  rfl

theorem atoi_neg_toString (n : Nat) : atoi ("-" ++ toString n) = -(n : Int) := by
  have hdata : ("-" ++ toString n).data = '-' :: Nat.toDigits 10 n := rfl
  have hval := digitsValue_toDigitsCore (n + 1) n [] (Nat.lt_succ_self n)
  unfold atoi
  rw [hdata]
  have hsp : isspace '-' = false := by decide
  simp only [List.dropWhile_cons, hsp, Bool.false_eq_true, if_false, if_true]
  unfold Nat.toDigits
  rw [hval]
  rfl

theorem atoi_no_digits (c : Char) (cs : List Char) (h1 : isspace c = false)
    (h2 : isdigit c = false) (h3 : c ≠ '-') (h4 : c ≠ '+') : atoi (String.mk (c :: cs)) = 0 := by
  unfold atoi
  simp only [List.dropWhile_cons, h1, Bool.false_eq_true, if_false, h3, h4, digitsValue, h2]
  rfl

theorem getopt_long_last_nonoption (posix : Bool) (db : String) (oa : Option String)
    (fl : Flags) (hdb : NONOPTION_P db = true) :
    ∃ st1, getopt_long posix short_options long_options
        { rest := [db], nextchar := [], nonopts := [], optarg := oa, flags := fl } = (none, st1) ∧
      st1.nonopts ++ st1.rest = [db] ∧ st1.flags = fl := by
  have hne : db ≠ "--" := by
    intro h
    rw [h] at hdb
    exact absurd hdb (by decide)
  cases posix
  · refine ⟨{ rest := [], nextchar := [], nonopts := [db], optarg := none, flags := fl }, ?_,
      rfl, rfl⟩
    simp [getopt_long, skipNonoptions, nextElement, hdb]
  · refine ⟨{ rest := [db], nextchar := [], nonopts := [], optarg := none, flags := fl }, ?_,
      rfl, rfl⟩
    simp [getopt_long, skipNonoptions, nextElement, hdb, hne]

/-- The command line `prog -c s db` with `c` one of `t`, `x`, `y` and `db` not an
option: `parse` runs the switch once, on `c` with `optarg = s`, and sets `db_arg`. -/
theorem parse_single_option (posix : Bool) (prog s db : String) (self : SectArgs) (c : Char)
    (hc : c = 't' ∨ c = 'x' ∨ c = 'y') (hdb : NONOPTION_P db = true) :
    parse posix [prog, String.mk ['-', c], s, db] self =
      match switchCase c (some s) self with
      | .continue cfg => some (.ok { cfg with db_arg := some db })
      | .exit status msg => some (.exit status msg)
      | .fault => some .fault := by
  have g1 : getopt_long posix short_options long_options
      (GetoptState.init [prog, String.mk ['-', c], s, db]) =
      (some c, { rest := [db], nextchar := [], nonopts := [], optarg := some s,
                 flags := { help_flag := 0, usage_flag := 0, verbose_flag := 0,
                            cvg_logscale_flag := 0 } }) := by
    rcases hc with h | h | h <;> subst h <;> cases posix <;> rfl
  obtain ⟨st1, g2, hrem, hfl⟩ := getopt_long_last_nonoption posix db (some s)
    { help_flag := 0, usage_flag := 0, verbose_flag := 0, cvg_logscale_flag := 0 } hdb
  unfold parse
  rw [if_neg (by simp)]
  obtain ⟨m, hm⟩ : ∃ m, (GetoptState.init [prog, String.mk ['-', c], s, db]).size + 1 = m + 2 :=
    ⟨(GetoptState.init [prog, String.mk ['-', c], s, db]).size - 1, by
      simp [GetoptState.size, GetoptState.init]; omega⟩
  rw [hm]
  unfold parseLoop
  rw [g1]
  simp only
  cases hs : switchCase c (some s) self with
  | exit status msg => rfl
  | fault => rfl
  | «continue» cfg =>
    simp only
    unfold parseLoop
    rw [g2]
    simp only [afterOptions, hrem, hfl]
    rfl

theorem toUInt16_neg (n : Nat) :
    toUInt16 (-(n : Int)) = if n % 65536 = 0 then 0 else 65536 - n % 65536 := by
  unfold toUInt16
  split <;> omega

theorem toUInt16_natCast (n : Nat) : toUInt16 (n : Int) = n % 65536 := by
  unfold toUInt16
  omega

/-! ## The local `verbose_flag` is never read -/

theorem store_setVerbose (fl : Flags) (f : FlagVar) (x v : Nat) :
    ({ (fl.store f x) with verbose_flag := 0 } : Flags) =
      { (({ fl with verbose_flag := v } : Flags).store f x) with verbose_flag := 0 } := by
  cases f <;> rfl

theorem shortOption_setVerbose (optstring : List Char) (st : GetoptState) (c : Char)
    (cs : List Char) (v : Nat) :
    (shortOption optstring (st.setVerboseFlag v) c cs).1 = (shortOption optstring st c cs).1 ∧
    ((shortOption optstring (st.setVerboseFlag v) c cs).2.setVerboseFlag 0) =
      ((shortOption optstring st c cs).2.setVerboseFlag 0) := by
  unfold shortOption GetoptState.setVerboseFlag
  simp only
  split
  · exact ⟨rfl, rfl⟩
  · split
    · exact ⟨rfl, rfl⟩
    · split
      · split
        · exact ⟨rfl, rfl⟩
        · split
          · exact ⟨rfl, rfl⟩
          · split <;> exact ⟨rfl, rfl⟩
      · exact ⟨rfl, rfl⟩

theorem process_long_option_setVerbose (optstring : List Char) (longopts : List LongOption)
    (st : GetoptState) (text : List Char) (v : Nat) :
    (process_long_option optstring longopts (st.setVerboseFlag v) text).1
      = (process_long_option optstring longopts st text).1 ∧
    ((process_long_option optstring longopts (st.setVerboseFlag v) text).2.setVerboseFlag 0) =
      ((process_long_option optstring longopts st text).2.setVerboseFlag 0) := by
  unfold process_long_option GetoptState.setVerboseFlag
  simp only
  split
  · exact ⟨rfl, rfl⟩
  · exact ⟨rfl, rfl⟩
  · rename_i p hp
    split
    · split
      · split
        · rename_i f hf
          refine ⟨rfl, ?_⟩
          simp only [GetoptState.mk.injEq, true_and]
          exact (store_setVerbose st.flags f p.val.toNat v).symm
        · exact ⟨rfl, rfl⟩
      · exact ⟨rfl, rfl⟩
    · split
      · split
        · split
          · rename_i f hf
            refine ⟨rfl, ?_⟩
            simp only [GetoptState.mk.injEq, true_and]
            exact (store_setVerbose st.flags f p.val.toNat v).symm
          · exact ⟨rfl, rfl⟩
        · exact ⟨rfl, rfl⟩
      · split
        · rename_i f hf
          refine ⟨rfl, ?_⟩
          simp only [GetoptState.mk.injEq, true_and]
          exact (store_setVerbose st.flags f p.val.toNat v).symm
        · exact ⟨rfl, rfl⟩

theorem nextElement_setVerbose (optstring : List Char) (longopts : List LongOption)
    (st : GetoptState) (v : Nat) :
    (nextElement optstring longopts (st.setVerboseFlag v)).1
      = (nextElement optstring longopts st).1 ∧
    ((nextElement optstring longopts (st.setVerboseFlag v)).2.setVerboseFlag 0) =
      ((nextElement optstring longopts st).2.setVerboseFlag 0) := by
  unfold nextElement
  have hr : (st.setVerboseFlag v).rest = st.rest := rfl
  rw [hr]
  split
  · exact ⟨rfl, rfl⟩
  · rename_i arg tl hrest
    split
    · exact ⟨rfl, rfl⟩
    · split
      · exact ⟨rfl, rfl⟩
      · split
        · rename_i x c cs harg
          split
          · exact process_long_option_setVerbose optstring longopts { st with rest := tl } cs v
          · exact shortOption_setVerbose optstring { st with rest := tl } c cs v
        · exact ⟨rfl, rfl⟩

theorem getopt_long_setVerbose (posix : Bool) (optstring : List Char)
    (longopts : List LongOption) (st : GetoptState) (v : Nat) :
    (getopt_long posix optstring longopts (st.setVerboseFlag v)).1
      = (getopt_long posix optstring longopts st).1 ∧
    ((getopt_long posix optstring longopts (st.setVerboseFlag v)).2.setVerboseFlag 0) =
      ((getopt_long posix optstring longopts st).2.setVerboseFlag 0) := by
  unfold getopt_long
  have hr : (st.setVerboseFlag v).nextchar = st.nextchar := rfl
  rw [hr]
  split
  · exact shortOption_setVerbose optstring { st with optarg := none } _ _ v
  · cases posix
    · exact nextElement_setVerbose optstring longopts
        (skipNonoptions false { st with optarg := none }) v
    · exact nextElement_setVerbose optstring longopts
        (skipNonoptions true { st with optarg := none }) v

theorem afterOptions_setVerbose (st : GetoptState) (v : Nat) (self : SectArgs) :
    afterOptions (st.setVerboseFlag v) self = afterOptions st self := rfl

theorem parseLoop_setVerbose (posix : Bool) (fuel : Nat) :
    ∀ (st : GetoptState) (v : Nat) (self : SectArgs),
      parseLoop posix fuel (st.setVerboseFlag v) self = parseLoop posix fuel st self := by
  induction fuel with
  | zero => intro st v self; rfl
  | succ n ih =>
    intro st v self
    obtain ⟨h1, h2⟩ := getopt_long_setVerbose posix short_options long_options st v
    unfold parseLoop
    cases hg : getopt_long posix short_options long_options st with
    | mk r st1 =>
      cases hg' : getopt_long posix short_options long_options (st.setVerboseFlag v) with
      | mk r' st1' =>
        rw [hg, hg'] at h1 h2
        simp only at h1 h2
        subst h1
        have hoa' : (st1'.setVerboseFlag 0).optarg = (st1.setVerboseFlag 0).optarg := by
          rw [h2]
        have hoa : st1'.optarg = st1.optarg := hoa'
        cases r' with
        | none =>
          simp only
          rw [← afterOptions_setVerbose st1' 0, ← afterOptions_setVerbose st1 0, h2]
        | some c =>
          simp only [hoa]
          cases switchCase c st1.optarg self with
          | exit status msg => rfl
          | fault => rfl
          | «continue» self1 =>
            simp only
            rw [← ih st1' 0, ← ih st1 0, h2]

theorem parseLoop_fuel (posix : Bool) (n : Nat) :
    ∀ (m : Nat) (st : GetoptState) (self : SectArgs), st.size < n → st.size < m →
      parseLoop posix n st self = parseLoop posix m st self := by
  induction n with
  | zero => intro m st self h _; omega
  | succ n ih =>
    intro m st self hn hm
    cases m with
    | zero => omega
    | succ m =>
      unfold parseLoop
      cases hg : getopt_long posix short_options long_options st with
      | mk r st1 =>
        cases r with
        | none => rfl
        | some c =>
          have hlt := getopt_long_size _ _ _ _ _ _ hg
          simp only
          cases switchCase c st1.optarg self with
          | exit status msg => rfl
          | fault => rfl
          | «continue» self1 => exact ih m st1 self1 (by omega) (by omega)

theorem parseLoop_verbose_step (posix : Bool) (fuel : Nat) (st : GetoptState)
    (tl : List String) (self : SectArgs) (hnc : st.nextchar = [])
    (hrest : st.rest = "--verbose" :: tl) :
    parseLoop posix (fuel + 1) st self =
      parseLoop posix fuel { st with rest := tl, optarg := none } self := by
  conv_lhs => unfold parseLoop
  rw [getopt_long_verbose posix st tl hnc hrest]
  simp only [switchCase_zero]
  exact parseLoop_setVerbose posix fuel { st with rest := tl, optarg := none } 'v'.toNat self

theorem parse_verbose_front (posix : Bool) (prog a : String) (rest : List String)
    (self : SectArgs) :
    parse posix (prog :: "--verbose" :: a :: rest) self = parse posix (prog :: a :: rest) self := by
  unfold parse
  rw [if_neg (by simp), if_neg (by simp)]
  rw [parseLoop_verbose_step posix _ (GetoptState.init (prog :: "--verbose" :: a :: rest))
    (a :: rest) self rfl rfl]
  have hst : ({ (GetoptState.init (prog :: "--verbose" :: a :: rest)) with
      rest := a :: rest, optarg := none } : GetoptState) = GetoptState.init (prog :: a :: rest) :=
    rfl
  rw [hst]
  apply parseLoop_fuel
  · simp [GetoptState.size, GetoptState.init]
  · omega

/-! ## Lemmas on the walker and the tally -/

theorem walkWindow_spec (count : List Char → Nat) (pos : Nat) (w : List Char)
    (log : List (Nat × List Char)) :
    ((∃ c ∈ w, isACGT c = false) → (walkWindow count pos w log).1 = 0) ∧
    (w.all isACGT = true → (walkWindow count pos w log).1 = count w) ∧
    (∀ q ∈ (walkWindow count pos w log).2, q ∈ log ∨ (q = (pos, w) ∧ w.all isACGT = true)) := by
  unfold walkWindow
  by_cases h : w.all isACGT = true
  · rw [if_pos h]
    refine ⟨?_, fun _ => rfl, ?_⟩
    · rintro ⟨c, hc, hf⟩
      rw [List.all_eq_true] at h
      rw [h c hc] at hf
      cases hf
    · intro q hq
      rcases List.mem_append.mp hq with h1 | h1
      · exact Or.inl h1
      · exact Or.inr ⟨List.mem_singleton.mp h1, h⟩
  · rw [if_neg h]
    exact ⟨fun _ => rfl, fun h' => absurd h' h, fun q hq => Or.inl hq⟩

theorem coverageWalk_spec (count : List Char → Nat) (k : Nat) (seq : List Char) :
    ∀ (pos : Nat) (log : List (Nat × List Char)),
      (coverageWalk count k seq pos log).1.length = seq.length + 1 - k ∧
      (∀ i, i + k ≤ seq.length → (∃ c ∈ (seq.drop i).take k, isACGT c = false) →
        (coverageWalk count k seq pos log).1[i]? = some 0) ∧
      (∀ i, i + k ≤ seq.length → ((seq.drop i).take k).all isACGT = true →
        (coverageWalk count k seq pos log).1[i]? = some (count ((seq.drop i).take k))) ∧
      (∀ q ∈ (coverageWalk count k seq pos log).2,
        q ∈ log ∨ (pos ≤ q.1 ∧ q.2 = (seq.drop (q.1 - pos)).take k ∧
          q.2.all isACGT = true)) := by
  induction seq with
  | nil =>
    intro pos log
    unfold coverageWalk
    by_cases hk : k = 0
    · subst hk
      rw [if_pos rfl]
      obtain ⟨w1, w2, w3⟩ := walkWindow_spec count pos [] log
      refine ⟨rfl, ?_, ?_, ?_⟩
      · intro i _ hd
        obtain ⟨c, hc, _⟩ := hd
        simp at hc
      · intro i hi _
        have : i = 0 := by simpa using hi
        subst this
        simp [w2]
      · intro q hq
        rcases w3 q hq with h | ⟨h, h'⟩
        · exact Or.inl h
        · subst h
          exact Or.inr ⟨Nat.le_refl _, by simp, h'⟩
    · rw [if_neg hk]
      refine ⟨by simp; omega, ?_, ?_, fun q hq => Or.inl hq⟩
      · intro i hi; simp at hi; omega
      · intro i hi; simp at hi; omega
  | cons c cs ih =>
    intro pos log
    unfold coverageWalk
    by_cases hk : k ≤ (c :: cs).length
    · rw [if_pos hk]
      simp only
      obtain ⟨w1, w2, w3⟩ := walkWindow_spec count pos ((c :: cs).take k) log
      obtain ⟨i1, i2, i3, i4⟩ := ih (pos + 1) (walkWindow count pos ((c :: cs).take k) log).2
      simp only [List.length_cons] at hk ⊢
      refine ⟨by rw [i1]; omega, ?_, ?_, ?_⟩
      · intro i hi hd
        cases i with
        | zero =>
          simp only [List.drop_zero] at hd
          simp [w1 hd]
        | succ j =>
          simp only [List.drop_succ_cons] at hd
          simpa using i2 j (by omega) hd
      · intro i hi hd
        cases i with
        | zero =>
          simp only [List.drop_zero] at hd ⊢
          simp [w2 hd]
        | succ j =>
          simp only [List.drop_succ_cons] at hd ⊢
          simpa using i3 j (by omega) hd
      · intro q hq
        rcases i4 q hq with h | ⟨h1, h2, h3⟩
        · rcases w3 q h with h' | ⟨h', h''⟩
          · exact Or.inl h'
          · subst h'
            exact Or.inr ⟨Nat.le_refl _, by simp, h''⟩
        · refine Or.inr ⟨by omega, ?_, h3⟩
          have : q.1 - pos = (q.1 - (pos + 1)) + 1 := by omega
          rw [this, List.drop_succ_cons]
          exact h2
    · rw [if_neg hk]
      simp only [List.length_cons] at hk ⊢
      refine ⟨by simp; omega, ?_, ?_, fun q hq => Or.inl hq⟩
      · intro i hi; omega
      · intro i hi; omega

theorem incrementBucket_length (t : List Nat) : ∀ b, (incrementBucket t b).length = t.length := by
  induction t with
  | nil => intro b; rfl
  | cons x xs ih =>
    intro b
    cases b with
    | zero => rfl
    | succ b => simp [incrementBucket, ih]

theorem incrementBucket_getD (t : List Nat) :
    ∀ b j, b < t.length →
      (incrementBucket t b).getD j 0 = t.getD j 0 + (if j = b then 1 else 0) := by
  induction t with
  | nil => intro b j h; simp at h
  | cons x xs ih =>
    intro b j h
    cases b with
    | zero =>
      cases j with
      | zero => simp [incrementBucket]
      | succ j => simp [incrementBucket]
    | succ b =>
      cases j with
      | zero => simp [incrementBucket]
      | succ j =>
        simp only [incrementBucket, List.getD_cons_succ]
        rw [ih b j (by simpa using h)]
        simp

theorem incrementBucket_sum (t : List Nat) :
    ∀ b, b < t.length → (incrementBucket t b).sum = t.sum + 1 := by
  induction t with
  | nil => intro b h; simp at h
  | cons x xs ih =>
    intro b h
    cases b with
    | zero => simp [incrementBucket]; omega
    | succ b =>
      simp only [incrementBucket, List.sum_cons]
      rw [ih b (by simpa using h)]
      omega

theorem tally_fold (max_bucket : Nat) (es : List (Nat × Nat)) :
    ∀ t : List Nat, t.length = max_bucket + 1 →
      (es.foldl (fun table e => incrementBucket table (min e.2 max_bucket)) t).length
        = max_bucket + 1 ∧
      (∀ b, (es.foldl (fun table e => incrementBucket table (min e.2 max_bucket)) t).getD b 0
        = t.getD b 0 + (es.filter (fun e => decide (min e.2 max_bucket = b))).length) ∧
      (es.foldl (fun table e => incrementBucket table (min e.2 max_bucket)) t).sum
        = t.sum + es.length := by
  induction es with
  | nil => intro t ht; simp [ht]
  | cons e es ih =>
    intro t ht
    have hb : min e.2 max_bucket < t.length := by rw [ht]; omega
    obtain ⟨h1, h2, h3⟩ := ih (incrementBucket t (min e.2 max_bucket))
      (by rw [incrementBucket_length, ht])
    simp only [List.foldl_cons]
    refine ⟨h1, ?_, ?_⟩
    · intro b
      rw [h2 b, incrementBucket_getD t _ b hb, List.filter_cons]
      by_cases hc : min e.2 max_bucket = b
      · simp [hc]; omega
      · have hc' : ¬ b = min e.2 max_bucket := fun h => hc h.symm
        simp [hc, hc']
    · rw [h3, incrementBucket_sum t _ hb, List.length_cons]
      omega

/-- The switch assigns `fasta_arg` on the option `f` only. -/
theorem runSwitch_fasta (evs : List OptEvent) :
    ∀ self cfg : SectArgs, runSwitch evs self = .continue cfg →
      (∀ e ∈ evs, e.1 ≠ 'f') → cfg.fasta_arg = self.fasta_arg := by
  induction evs with
  | nil =>
    intro self cfg h _
    cases h
    rfl
  | cons e evs ih =>
    intro self cfg h hf
    obtain ⟨c, optarg⟩ := e
    simp only [runSwitch] at h
    cases hs : switchCase c optarg self with
    | exit status msg => rw [hs] at h; cases h
    | fault => rw [hs] at h; cases h
    | «continue» cfg1 =>
      rw [hs] at h
      simp only at h
      obtain ⟨_, _, _, a4, _⟩ := switchCase_continue c optarg self cfg1 hs
      rw [ih cfg1 cfg h (fun e he => hf e (List.mem_cons_of_mem _ he)), a4,
        if_neg (hf (c, optarg) (List.mem_cons_self _ _))]

/-- The loop of `parse` always ends: `parse` has an outcome on every command
line. -/
theorem parse_total (posix : Bool) (argv : List String) (self : SectArgs) :
    ∃ o, parse posix argv self = some o := by
  unfold parse
  split
  · exact ⟨_, rfl⟩
  · obtain ⟨evs, stF, _, h⟩ := getoptAll_parseLoop posix ((GetoptState.init argv).size + 1)
      (GetoptState.init argv) self (Nat.lt_succ_self _)
    exact ⟨_, h⟩

/-! ## The claims -/

/-- C1 (the code departs from its help text): on a command line without `-l`
and without `--cvg_logscale`, `parse` returns a configuration whose
`cvg_logscale` is `true`, the value the constructor gave it, not `false`; with
the short or the long option the configuration is the same; and on every
accepted command line `cvg_logscale` is `true`. -/
theorem cvg_logscale_not_set_by_option :
    SectArgs.ofArgv false ["kat", "-f", "a.fa", "db"] =
      some (.ok { SectArgs.new with fasta_arg := some "a.fa", db_arg := some "db" }) ∧
    ({ SectArgs.new with fasta_arg := some "a.fa", db_arg := some "db" } : SectArgs).cvg_logscale
      = true ∧
    SectArgs.ofArgv false ["kat", "-l", "-f", "a.fa", "db"] =
      SectArgs.ofArgv false ["kat", "-f", "a.fa", "db"] ∧
    SectArgs.ofArgv false ["kat", "--cvg_logscale", "-f", "a.fa", "db"] =
      SectArgs.ofArgv false ["kat", "-f", "a.fa", "db"] ∧
    (∀ (posix : Bool) (argv : List String) (cfg : SectArgs),
      SectArgs.ofArgv posix argv = some (.ok cfg) → cfg.cvg_logscale = true) := by
  refine ⟨rfl, rfl, rfl, rfl, ?_⟩
  intro posix argv cfg hok
  obtain ⟨evs, stF, htrace⟩ := optionTrace_total posix argv
  obtain ⟨cfg1, db, hrun, _, _, _, hcfg⟩ := parse_ok posix argv SectArgs.new cfg evs stF htrace hok
  obtain ⟨_, _, b3, _⟩ := runSwitch_continue evs SectArgs.new cfg1 hrun
  subst hcfg
  exact b3

/-- C3 (the code departs from its help text): a command line with no `-f` and
no `--fasta` is accepted; `parse` returns with `fasta_arg` never assigned, as it
does on every accepted command line on which getopt reports no option `f`. -/
theorem fasta_not_required :
    SectArgs.ofArgv false ["kat", "db"] = some (.ok { SectArgs.new with db_arg := some "db" }) ∧
    ({ SectArgs.new with db_arg := some "db" } : SectArgs).fasta_arg = none ∧
    (∀ (posix : Bool) (argv : List String) (evs : List OptEvent) (stF : GetoptState)
      (cfg : SectArgs), optionTrace posix argv = some (evs, stF) →
      SectArgs.ofArgv posix argv = some (.ok cfg) → (∀ e ∈ evs, e.1 ≠ 'f') →
      cfg.fasta_arg = none) := by
  refine ⟨rfl, rfl, ?_⟩
  intro posix argv evs stF cfg htrace hok hf
  obtain ⟨cfg1, db, hrun, _, _, _, hcfg⟩ := parse_ok posix argv SectArgs.new cfg evs stF htrace hok
  subst hcfg
  exact runSwitch_fasta evs SectArgs.new cfg1 hrun hf

/-- C4 (the code departs from its help text): `--both_strands` takes the next
element as its argument, so the line that `-C` makes accepted is rejected for
want of a positional argument, and `--both_strands` at the end of the line is
an option without its argument. -/
theorem both_strands_long_needs_argument :
    SectArgs.ofArgv false ["kat", "-f", "a.fa", "-C", "db"] =
      some (.ok { SectArgs.new with fasta_arg := some "a.fa", db_arg := some "db",
                                    both_strands := true }) ∧
    SectArgs.ofArgv false ["kat", "-f", "a.fa", "--both_strands", "db"] =
      some (.exit 1 (.error "Requires exactly 1 argument.")) ∧
    SectArgs.ofArgv false ["kat", "-f", "a.fa", "db", "--both_strands"] =
      some (.exit 1 .useUsageOrHelp) := by
  refine ⟨?_, ?_, ?_⟩ <;> rfl

/-- C6 as stated fails: the command line `-x 0 -y abc -t 65536 db` is accepted
and returns `gc_bins = 0`, `cvg_bins = 0` and `threads_arg = 0`. -/
theorem zero_bins_accepted :
    SectArgs.ofArgv false ["kat", "-x", "0", "-y", "abc", "-t", "65536", "db"] =
      some (.ok { SectArgs.new with db_arg := some "db", gc_bins := 0, cvg_bins := 0,
                                    threads_arg := 0 }) := by
  rfl

/-- C2: the default constructor gives `gc_bins = 1001`, `cvg_bins = 1001`,
`threads_arg = 1` and `both_strands = false`, and so does `parse` on every
accepted command line on which getopt reports none of the options `x`
(`-x`, `--gc_bins`), `y` (`-y`, `--cvg_bins`) and `t` (`-t`, `--threads`);
`both_strands` stays `false` when it reports no `C` either. -/
theorem sect_defaults (posix : Bool) (argv : List String) (evs : List OptEvent)
    (stF : GetoptState) (cfg : SectArgs)
    (htrace : optionTrace posix argv = some (evs, stF))
    (hok : SectArgs.ofArgv posix argv = some (.ok cfg))
    (hx : ∀ e ∈ evs, e.1 ≠ 'x') (hy : ∀ e ∈ evs, e.1 ≠ 'y') (ht : ∀ e ∈ evs, e.1 ≠ 't') :
    (SectArgs.new.gc_bins = 1001 ∧ SectArgs.new.cvg_bins = 1001 ∧
      SectArgs.new.threads_arg = 1 ∧ SectArgs.new.both_strands = false) ∧
    cfg.gc_bins = 1001 ∧ cfg.cvg_bins = 1001 ∧ cfg.threads_arg = 1 ∧
    ((∀ e ∈ evs, e.1 ≠ 'C') → cfg.both_strands = false) := by
  obtain ⟨cfg1, db, hrun, _, _, _, hcfg⟩ := parse_ok posix argv SectArgs.new cfg evs stF htrace hok
  obtain ⟨_, _, _, _, b5, b6, b7, b8, _⟩ := runSwitch_continue evs SectArgs.new cfg1 hrun
  subst hcfg
  refine ⟨⟨rfl, rfl, rfl, rfl⟩, b6 hx, b7 hy, b8 ht, ?_⟩
  intro hC
  show cfg1.both_strands = false
  rw [b5]
  have : evs.any (fun e => decide (e.1 = 'C')) = false := by
    rw [List.any_eq_false]
    intro e he
    simpa using hC e he
  rw [this]
  rfl

/-- Witness of C2 on `kat -f a.fa -v db`. -/
theorem sect_defaults_witness :
    (1001 = 1001 ∧ 1001 = 1001 ∧ 1 = 1 ∧ false = false) ∧
    ({ SectArgs.new with fasta_arg := some "a.fa", verbose := true, db_arg := some "db" }
      : SectArgs).gc_bins = 1001 ∧
    ({ SectArgs.new with fasta_arg := some "a.fa", verbose := true, db_arg := some "db" }
      : SectArgs).cvg_bins = 1001 ∧
    ({ SectArgs.new with fasta_arg := some "a.fa", verbose := true, db_arg := some "db" }
      : SectArgs).threads_arg = 1 ∧
    ((∀ e ∈ [(('f', some "a.fa") : OptEvent), ('v', none)], e.1 ≠ 'C') →
      ({ SectArgs.new with fasta_arg := some "a.fa", verbose := true, db_arg := some "db" }
        : SectArgs).both_strands = false) :=
  sect_defaults false ["kat", "-f", "a.fa", "-v", "db"] [('f', some "a.fa"), ('v', none)]
    { rest := [], nextchar := [], nonopts := ["db"], optarg := none,
      flags := { help_flag := 0, usage_flag := 0, verbose_flag := 0, cvg_logscale_flag := 0 } }
    { SectArgs.new with fasta_arg := some "a.fa", verbose := true, db_arg := some "db" }
    rfl rfl (by decide) (by decide) (by decide)

/-- C5: on a command line with `argc > 1` on which getopt reports no error
(`?`, `:`) and neither `h` nor `u`, and which sets neither `help_flag` nor
`usage_flag`, `parse` returns a configuration exactly when one argument remains
after option processing, `db_arg` is then that argument, and with any other
number of remaining arguments `parse` ends in `error ("Requires exactly 1
argument.")` with exit status `1`. -/
theorem parse_requires_one_argument (posix : Bool) (argv : List String) (self : SectArgs)
    (evs : List OptEvent) (stF : GetoptState)
    (hargc : 1 < argv.length)
    (htrace : optionTrace posix argv = some (evs, stF))
    (hwell : ∀ e ∈ evs, e.1 ≠ '?' ∧ e.1 ≠ ':' ∧ e.1 ≠ 'h' ∧ e.1 ≠ 'u')
    (hhelp : stF.flags.help_flag = 0) (husage : stF.flags.usage_flag = 0) :
    ((∃ cfg, parse posix argv self = some (.ok cfg)) ↔ stF.remaining.length = 1) ∧
    (∀ cfg, parse posix argv self = some (.ok cfg) →
      ∃ db, stF.remaining = [db] ∧ cfg.db_arg = some db) ∧
    (stF.remaining.length ≠ 1 →
      parse posix argv self = some (.exit 1 (.error "Requires exactly 1 argument."))) := by
  have hparse := parse_eq_of_trace posix argv self evs stF hargc htrace
  obtain ⟨cfg1, hrun⟩ := runSwitch_of_wellformed evs self hwell
    (getoptAll_optarg posix _ _ evs stF htrace)
  rw [hrun] at hparse
  simp only [finishParse] at hparse
  rw [afterOptions_of_flags stF cfg1 hhelp husage] at hparse
  rw [hparse]
  unfold GetoptState.remaining
  cases hrem : stF.nonopts ++ stF.rest with
  | nil => simp
  | cons a l =>
    cases l with
    | nil => simp
    | cons b l => simp

/-- Witness of C5 on `kat -f a.fa -v db`, where one argument remains. -/
theorem parse_requires_one_argument_witness :
    optionTrace false ["kat", "-f", "a.fa", "-v", "db"] =
      some ([('f', some "a.fa"), ('v', none)],
        { rest := [], nextchar := [], nonopts := ["db"], optarg := none,
          flags := { help_flag := 0, usage_flag := 0, verbose_flag := 0,
                     cvg_logscale_flag := 0 } }) ∧
    ((∃ cfg, parse false ["kat", "-f", "a.fa", "-v", "db"] SectArgs.new = some (.ok cfg)) ↔
      ["db"].length = 1) :=
  ⟨rfl,
    (parse_requires_one_argument false ["kat", "-f", "a.fa", "-v", "db"] SectArgs.new
      [('f', some "a.fa"), ('v', none)]
      { rest := [], nextchar := [], nonopts := ["db"], optarg := none,
        flags := { help_flag := 0, usage_flag := 0, verbose_flag := 0,
                   cvg_logscale_flag := 0 } }
      (by decide) rfl (by decide) rfl rfl).1⟩

/-- C6 as amended: on every accepted command line whose arguments of the
options `t`, `x` and `y` have `atoi` values inside the range of `int`,
`gc_bins`, `cvg_bins` and `threads_arg` are `uint16_t` values, below `2 ^ 16`,
and each is at least `1` when none of those arguments converts to `0`
(`parse` does no validation: an argument that converts to `0` is stored). -/
theorem sect_bins_range (posix : Bool) (argv : List String) (evs : List OptEvent)
    (stF : GetoptState) (cfg : SectArgs)
    (htrace : optionTrace posix argv = some (evs, stF))
    (hok : SectArgs.ofArgv posix argv = some (.ok cfg))
    (_hrange : ∀ e ∈ evs, inIntRange e = true) :
    (cfg.gc_bins < 65536 ∧ cfg.cvg_bins < 65536 ∧ cfg.threads_arg < 65536) ∧
    ((∀ e ∈ evs, givesZero e = false) →
      1 ≤ cfg.gc_bins ∧ 1 ≤ cfg.cvg_bins ∧ 1 ≤ cfg.threads_arg) := by
  obtain ⟨cfg1, db, hrun, _, _, _, hcfg⟩ := parse_ok posix argv SectArgs.new cfg evs stF htrace hok
  obtain ⟨_, _, _, _, _, _, _, _, b9, b10, b11, b12, b13, b14, _⟩ :=
    runSwitch_continue evs SectArgs.new cfg1 hrun
  subst hcfg
  refine ⟨⟨b9 (by decide), b10 (by decide), b11 (by decide)⟩, ?_⟩
  intro hnz
  exact ⟨b12 hnz (by decide), b13 hnz (by decide), b14 hnz (by decide)⟩

/-- Witness of the amended C6 on `kat -x 7 -t 8 db`: the arguments are inside the
range of `int` and none converts to `0`, so both the upper and the lower bounds
hold. -/
theorem sect_bins_range_witness :
    optionTrace false ["kat", "-x", "7", "-t", "8", "db"] =
      some ([('x', some "7"), ('t', some "8")],
        { rest := [], nextchar := [], nonopts := ["db"], optarg := none,
          flags := { help_flag := 0, usage_flag := 0, verbose_flag := 0,
                     cvg_logscale_flag := 0 } }) ∧
    SectArgs.ofArgv false ["kat", "-x", "7", "-t", "8", "db"] =
      some (.ok { SectArgs.new with gc_bins := 7, threads_arg := 8, db_arg := some "db" }) ∧
    (∀ e ∈ [(('x', some "7") : OptEvent), ('t', some "8")], inIntRange e = true) ∧
    (∀ e ∈ [(('x', some "7") : OptEvent), ('t', some "8")], givesZero e = false) ∧
    ((7 : Nat) < 65536 ∧ (1001 : Nat) < 65536 ∧ (8 : Nat) < 65536) ∧
    ((1 : Nat) ≤ 7 ∧ (1 : Nat) ≤ 1001 ∧ (1 : Nat) ≤ 8) :=
  ⟨rfl, rfl, by decide, by decide,
    (sect_bins_range false ["kat", "-x", "7", "-t", "8", "db"]
      [('x', some "7"), ('t', some "8")]
      { rest := [], nextchar := [], nonopts := ["db"], optarg := none,
        flags := { help_flag := 0, usage_flag := 0, verbose_flag := 0,
                   cvg_logscale_flag := 0 } }
      { SectArgs.new with gc_bins := 7, threads_arg := 8, db_arg := some "db" } rfl rfl
      (by decide)).1,
    (sect_bins_range false ["kat", "-x", "7", "-t", "8", "db"]
      [('x', some "7"), ('t', some "8")]
      { rest := [], nextchar := [], nonopts := ["db"], optarg := none,
        flags := { help_flag := 0, usage_flag := 0, verbose_flag := 0,
                   cvg_logscale_flag := 0 } }
      { SectArgs.new with gc_bins := 7, threads_arg := 8, db_arg := some "db" } rfl rfl
      (by decide)).2 (by decide)⟩

/-- C10: on every accepted command line `verbose` is `true` after `parse`
exactly when getopt reports the option `v`, which only the short option `-v`
gives: a long option never returns `v`; the element `--verbose` makes
`getopt_long` return `0` and store `v` in `verbose_flag`, leaving the rest of
its state as any option without argument does; the switch leaves the
configuration unchanged on the return value `0`; `verbose_flag` is never read,
that is, the loop of `parse` and the code after it end the same whatever value
`verbose_flag` holds; so an element `--verbose` that getopt is about to scan
can be dropped without any change to the outcome of `parse`, and in front of a
command line `--verbose` changes neither the outcome nor any field. -/
theorem verbose_iff_short_option (posix : Bool) (argv : List String) (evs : List OptEvent)
    (stF : GetoptState) (cfg : SectArgs)
    (htrace : optionTrace posix argv = some (evs, stF))
    (hok : SectArgs.ofArgv posix argv = some (.ok cfg)) :
    (cfg.verbose = true ↔ ∃ e ∈ evs, e.1 = 'v') ∧
    (∀ (st : GetoptState) (text : List Char) (r : Option Char) (st1 : GetoptState),
      process_long_option short_options long_options st text = (r, st1) → r ≠ some 'v') ∧
    (∀ (st : GetoptState) (tl : List String), st.nextchar = [] →
      st.rest = "--verbose" :: tl →
      getopt_long posix short_options long_options st =
        (some (Char.ofNat 0),
          { st with rest := tl, optarg := none,
                    flags := { st.flags with verbose_flag := 'v'.toNat } })) ∧
    (∀ (optarg : Option String) (self : SectArgs),
      switchCase (Char.ofNat 0) optarg self = .continue self) ∧
    (∀ (fuel : Nat) (st : GetoptState) (v : Nat) (self : SectArgs),
      parseLoop posix fuel (st.setVerboseFlag v) self = parseLoop posix fuel st self) ∧
    (∀ (fuel : Nat) (st : GetoptState) (tl : List String) (self : SectArgs),
      st.nextchar = [] → st.rest = "--verbose" :: tl →
      parseLoop posix (fuel + 1) st self =
        parseLoop posix fuel { st with rest := tl, optarg := none } self) ∧
    (∀ (prog a : String) (rest : List String) (self : SectArgs),
      parse posix (prog :: "--verbose" :: a :: rest) self
        = parse posix (prog :: a :: rest) self) := by
  obtain ⟨cfg1, db, hrun, _, _, _, hcfg⟩ := parse_ok posix argv SectArgs.new cfg evs stF htrace hok
  obtain ⟨_, _, _, b4, _⟩ := runSwitch_continue evs SectArgs.new cfg1 hrun
  subst hcfg
  refine ⟨?_, process_long_option_not_v, getopt_long_verbose posix, switchCase_zero,
    parseLoop_setVerbose posix, parseLoop_verbose_step posix, parse_verbose_front posix⟩
  show cfg1.verbose = true ↔ _
  rw [b4]
  simp [SectArgs.new]

/-- Witness of C10 on `kat --verbose -f a.fa db`: the long option leaves
`verbose` at `false`, and `parse` ends as it does on `kat -f a.fa db`. -/
theorem verbose_iff_short_option_witness :
    optionTrace false ["kat", "--verbose", "-f", "a.fa", "db"] =
      some ([(Char.ofNat 0, none), ('f', some "a.fa")],
        { rest := [], nextchar := [], nonopts := ["db"], optarg := none,
          flags := { help_flag := 0, usage_flag := 0, verbose_flag := 118,
                     cvg_logscale_flag := 0 } }) ∧
    SectArgs.ofArgv false ["kat", "--verbose", "-f", "a.fa", "db"] =
      some (.ok { SectArgs.new with fasta_arg := some "a.fa", db_arg := some "db" }) ∧
    (({ SectArgs.new with fasta_arg := some "a.fa", db_arg := some "db" } : SectArgs).verbose
        = true ↔
      ∃ e ∈ [((Char.ofNat 0, none) : OptEvent), ('f', some "a.fa")], e.1 = 'v') ∧
    parse false ["kat", "--verbose", "-f", "a.fa", "db"] SectArgs.new
      = parse false ["kat", "-f", "a.fa", "db"] SectArgs.new :=
  ⟨rfl, rfl,
    (verbose_iff_short_option false ["kat", "--verbose", "-f", "a.fa", "db"]
      [(Char.ofNat 0, none), ('f', some "a.fa")]
      { rest := [], nextchar := [], nonopts := ["db"], optarg := none,
        flags := { help_flag := 0, usage_flag := 0, verbose_flag := 118,
                   cvg_logscale_flag := 0 } }
      { SectArgs.new with fasta_arg := some "a.fa", db_arg := some "db" } rfl rfl).1,
    (verbose_iff_short_option false ["kat", "--verbose", "-f", "a.fa", "db"]
      [(Char.ofNat 0, none), ('f', some "a.fa")]
      { rest := [], nextchar := [], nonopts := ["db"], optarg := none,
        flags := { help_flag := 0, usage_flag := 0, verbose_flag := 118,
                   cvg_logscale_flag := 0 } }
      { SectArgs.new with fasta_arg := some "a.fa", db_arg := some "db" } rfl rfl).2.2.2.2.2.2
      "kat" "-f" ["a.fa", "db"] SectArgs.new⟩

/-- C9: an option argument `s` of `-x`, `-y` or `-t` whose `atoi` value lies in
the range of `int` is never rejected: the switch stores that value modulo
`2 ^ 16` in `gc_bins`, `cvg_bins` or `threads_arg` and leaves every other field
as it was, and so does `parse` as a whole on `prog -x s db` (the same for `-y`,
`-t`). A decimal `n` in `0 .. 65535` is stored as `n`, `65536 + n` as `n`, a
negative `-n` as `2 ^ 16 - n mod 2 ^ 16` or `0`, and a string that starts with
neither white space, a sign nor a digit as `0`. -/
theorem numeric_options_truncate (self : SectArgs) (s : String)
    (_hmin : INT_MIN ≤ atoi s) (_hmax : atoi s ≤ INT_MAX) :
    switchCase 'x' (some s) self
      = .continue { self with gc_bins := (atoi s % 2 ^ 16).toNat } ∧
    switchCase 'y' (some s) self
      = .continue { self with cvg_bins := (atoi s % 2 ^ 16).toNat } ∧
    switchCase 't' (some s) self
      = .continue { self with threads_arg := (atoi s % 2 ^ 16).toNat } ∧
    (atoi s % 2 ^ 16).toNat < 2 ^ 16 ∧
    (∀ (posix : Bool) (prog db : String), NONOPTION_P db = true →
      parse posix [prog, "-x", s, db] self
        = some (.ok { self with gc_bins := (atoi s % 2 ^ 16).toNat, db_arg := some db }) ∧
      parse posix [prog, "-y", s, db] self
        = some (.ok { self with cvg_bins := (atoi s % 2 ^ 16).toNat, db_arg := some db }) ∧
      parse posix [prog, "-t", s, db] self
        = some (.ok { self with threads_arg := (atoi s % 2 ^ 16).toNat, db_arg := some db })) ∧
    (∀ n : Nat, n < 65536 →
      toUInt16 (atoi (toString n)) = n ∧ toUInt16 (atoi (toString (65536 + n))) = n) ∧
    (∀ n : Nat, INT_MIN ≤ -(n : Int) →
      toUInt16 (atoi ("-" ++ toString n)) = if n % 65536 = 0 then 0 else 65536 - n % 65536) ∧
    (∀ (c : Char) (cs : List Char), isspace c = false → isdigit c = false → c ≠ '-' →
      c ≠ '+' → toUInt16 (atoi (String.mk (c :: cs))) = 0) := by
  have hx : switchCase 'x' (some s) self
      = .continue { self with gc_bins := (atoi s % 2 ^ 16).toNat } := rfl
  have hy : switchCase 'y' (some s) self
      = .continue { self with cvg_bins := (atoi s % 2 ^ 16).toNat } := rfl
  have ht : switchCase 't' (some s) self
      = .continue { self with threads_arg := (atoi s % 2 ^ 16).toNat } := rfl
  refine ⟨hx, hy, ht, toUInt16_lt (atoi s), ?_, ?_, ?_, ?_⟩
  · intro posix prog db hdb
    refine ⟨?_, ?_, ?_⟩
    · have := parse_single_option posix prog s db self 'x' (by decide) hdb
      rw [hx] at this
      exact this
    · have := parse_single_option posix prog s db self 'y' (by decide) hdb
      rw [hy] at this
      exact this
    · have := parse_single_option posix prog s db self 't' (by decide) hdb
      rw [ht] at this
      exact this
  · intro n hn
    rw [atoi_toString, atoi_toString, toUInt16_natCast, toUInt16_natCast]
    omega
  · intro n _
    rw [atoi_neg_toString, toUInt16_neg]
  · intro c cs h1 h2 h3 h4
    rw [atoi_no_digits c cs h1 h2 h3 h4]
    rfl

/-- Witness of C9 on the argument `65537`, stored as `1`. -/
theorem numeric_options_truncate_witness :
    (INT_MIN ≤ atoi "65537" ∧ atoi "65537" ≤ INT_MAX) ∧
    switchCase 'x' (some "65537") SectArgs.new
      = .continue { SectArgs.new with gc_bins := (atoi "65537" % 2 ^ 16).toNat } ∧
    (atoi "65537" % 2 ^ 16).toNat = 1 :=
  ⟨⟨by decide, by decide⟩,
    (numeric_options_truncate SectArgs.new "65537" (by decide) (by decide)).1, by decide⟩

/-- C7 (against the walker modelled from section 4.3): for every index `count`,
every `k` and every sequence, the coverage profile has
`max (0, len (sequence) - k + 1)` entries, and a window of length `k` at
position `i` that holds a base outside `A, C, G, T` has coverage `0` and is
absent from the log of index queries. -/
theorem ambiguous_window_zero_unqueried (count : List Char → Nat) (k : Nat) (seq : List Char) :
    (coverageProfile count k seq).length = seq.length + 1 - k ∧
    ((coverageProfile count k seq).length : Int) = max 0 ((seq.length : Int) - k + 1) ∧
    (∀ i, i + k ≤ seq.length → (∃ c ∈ (seq.drop i).take k, isACGT c = false) →
      (coverageProfile count k seq)[i]? = some 0 ∧
      ∀ q ∈ coverageQueries count k seq, q.1 ≠ i) := by
  obtain ⟨h1, h2, _, h4⟩ := coverageWalk_spec count k seq 0 []
  unfold coverageProfile coverageQueries
  refine ⟨h1, by rw [h1]; omega, ?_⟩
  intro i hi hd
  refine ⟨h2 i hi hd, ?_⟩
  intro q hq hqi
  rcases h4 q hq with h | ⟨_, hw, hall⟩
  · cases h
  · obtain ⟨c, hc, hf⟩ := hd
    rw [hw, hqi, Nat.sub_zero, List.all_eq_true] at hall
    rw [hall c hc] at hf
    cases hf

/-- C8 (against the tally modelled from section 4.2): after `do_it` the tally of
bucket `b` is the number of distinct keys of the index whose count `c` has
`min (c, max_bucket) = b`, the tallies sum to the number of distinct keys, an
empty index gives the all-zero table, and counts `1, 1, 2, 2, 2, 3` with
`max_bucket = 3` give the tallies `0, 2, 3, 1` of the buckets `0 .. 3`. -/
theorem histogram_tally (max_bucket : Nat) (index : KmerIndex) :
    (∀ b, (Histogram.do_it max_bucket index).getD b 0 =
      ((index.entries.filter (fun e => decide (min e.2 max_bucket = b))).map
        Prod.fst).toFinset.card) ∧
    (Histogram.do_it max_bucket index).sum = (index.entries.map Prod.fst).toFinset.card ∧
    (Histogram.do_it max_bucket index).length = max_bucket + 1 ∧
    Histogram.do_it max_bucket ⟨[], List.nodup_nil⟩ = List.replicate (max_bucket + 1) 0 ∧
    Histogram.do_it 3 ⟨[(0, 1), (1, 1), (2, 2), (3, 2), (4, 2), (5, 3)], by decide⟩
      = [0, 2, 3, 1] := by
  obtain ⟨h1, h2, h3⟩ := tally_fold max_bucket index.entries
    (List.replicate (max_bucket + 1) 0) (by simp)
  unfold Histogram.do_it
  refine ⟨?_, ?_, h1, rfl, by decide⟩
  · intro b
    rw [h2 b]
    have hnd : ((index.entries.filter (fun e => decide (min e.2 max_bucket = b))).map
        Prod.fst).Nodup :=
      (List.Nodup.sublist ((List.filter_sublist _).map _) index.nodup)
    rw [List.toFinset_card_of_nodup hnd, List.length_map]
    have : (List.replicate (max_bucket + 1) 0).getD b 0 = 0 := by
      simp [List.getD_eq_getElem?_getD, List.getElem?_replicate]
      split <;> rfl
    rw [this, Nat.zero_add]
  · rw [h3, List.toFinset_card_of_nodup index.nodup, List.length_map]
    simp

end kat
